import Mathlib

/-!
Shallow embedding of the DevSwarm multi-agent code-analysis engine.

The definitions below are translated from the TypeScript source of the
repository (backend/src/agents/BaseAgent.ts, SecurityAgent.ts,
ForkManager.ts, backend/src/index.ts, and the seed rule library of
migration 003).  JavaScript number arithmetic on the confidence values is
idealized as exact rational arithmetic; JavaScript strings are modelled as
Lean strings / character lists.  The theorems at the end of the file check
the specification claims against these definitions.
-/

namespace DevSwarm

/-- Severity levels of `Finding.severity` in `types/index.ts`. -/
inductive Severity where
  | critical
  | high
  | medium
  | low
  | info
deriving DecidableEq

/-- The `Finding` record of `types/index.ts` (lines 33-44).  Optional fields are
`Option`; a JS `undefined` is `none`. -/
structure Finding where
  severity : Severity
  category : String
  message : String
  line_start : Option Nat := none
  line_end : Option Nat := none
  column_start : Option Nat := none
  column_end : Option Nat := none
  suggestion : Option String := none
  code_snippet : Option String := none
  pattern_match_id : Option String := none
deriving DecidableEq

/-- The `CodePattern` record of `types/index.ts` (lines 46-56); the `embedding` and
`created_at` fields play no role in matching and are omitted. -/
structure CodePattern where
  id : String
  pattern_text : String
  category : String
  severity : Severity
  description : String
  language : String
  example_fix : Option String := none
deriving DecidableEq

/-- Severity weights of `BaseAgent.calculateConfidence`
(BaseAgent.ts lines 109-115). -/
def severityWeight : Severity → ℚ
  | .critical => 1
  | .high => 4/5
  | .medium => 3/5
  | .low => 2/5
  | .info => 1/5

/-- The scorer `BaseAgent.calculateConfidence` (BaseAgent.ts lines 106-119): 1.0 for an
empty finding list, otherwise the average severity weight plus 0.2, clamped
to at most 1.0. -/
def calculateConfidence (findings : List Finding) : ℚ :=
  if findings.length = 0 then 1
  else
    let avgWeight := (findings.map (fun f => severityWeight f.severity)).sum / findings.length
    min 1 (avgWeight + 1/5)

/-- The confidence value that the orchestrator actually stores with each
`AnalysisResult` (`analyzeCode`, index.ts line 435):
`findings.length > 0 ? 0.85 : 1.0`. -/
def storedConfidence (findings : List Finding) : ℚ :=
  if findings.length > 0 then 17/20 else 1

/-- The JS regex metacharacters escaped by the fallback of
`BaseAgent.matchPatterns` (BaseAgent.ts line 136):
`.replace(/[.*+?^$\x7b\x7d()|[\]\\]/g, '\\$&')`. -/
def isRegexMeta (c : Char) : Bool :=
  c = '.' || c = '*' || c = '+' || c = '?' || c = '^' || c = '$' ||
  c = '\x7b' || c = '\x7d' || c = '(' || c = ')' || c = '|' ||
  c = '[' || c = ']' || c = '\\'

/-- Character-list form of the metacharacter escaping: every metacharacter
is prefixed with a backslash. -/
def escapeChars : List Char → List Char
  | [] => []
  | c :: rest =>
    if isRegexMeta c then '\\' :: c :: escapeChars rest
    else c :: escapeChars rest

/-- The literal escaping of BaseAgent.ts line 136 on strings. -/
def escapeRegexChars (s : String) : String := String.mk (escapeChars s.data)

/-- Interpretation of an escaped pattern text as the character sequence it
denotes: a backslash makes the following character literal. -/
def unescapeChars : List Char → List Char
  | [] => []
  | c :: rest =>
    if c = '\\' then
      match rest with
      | [] => [c]
      | d :: rest2 => d :: unescapeChars rest2
    else c :: unescapeChars rest

/-- Lower-casing a character list; the model of the `i` regex flag. -/
def lowerChars (l : List Char) : List Char := l.map Char.toLower

/-- Case-insensitive prefix test. -/
def isPrefixCI (pat l : List Char) : Bool :=
  (lowerChars pat).isPrefixOf (lowerChars l)

/-- Exact (case-sensitive) occurrence of `pat` somewhere in `l`. -/
def occursIn (pat : List Char) : List Char → Bool
  | [] => pat.isPrefixOf []
  | c :: cs => pat.isPrefixOf (c :: cs) || occursIn pat cs

/-- Case-insensitive occurrence of `pat` somewhere in `l`. -/
def occursCI (pat : List Char) : List Char → Bool
  | [] => isPrefixCI pat []
  | c :: cs => isPrefixCI pat (c :: cs) || occursCI pat cs

/-- JS `line.matchAll(regex)` semantics for a literal pattern compiled with
flags `gi`: non-overlapping, left-to-right, case-insensitive matches,
each reported with its start index and matched text; a zero-length match
advances by one position (the JS `lastIndex` rule). -/
def litScan (pat : List Char) : List Char → Nat → List (Nat × List Char)
  | [], pos => if pat.isEmpty then [(pos, [])] else []
  | c :: cs, pos =>
    if isPrefixCI pat (c :: cs) then
      (pos, (c :: cs).take pat.length) ::
        litScan pat ((c :: cs).drop (max 1 pat.length)) (pos + max 1 pat.length)
    else
      litScan pat cs (pos + 1)
termination_by l _ => l.length
decreasing_by
  · simp only [List.length_drop, List.length_cons]
    omega
  · simp only [List.length_cons]
    omega

/-- Literal matching of a whole line, string-valued. -/
def litMatchAll (pat line : String) : List (Nat × String) :=
  (litScan pat.data line.data 0).map (fun m => (m.1, String.mk m.2))

/-- The behavior of the ambient JS regex engine on rule texts: which rule
texts compile (`new RegExp(text)` does not throw), and which matches
`matchAll` yields per line for a text compiled as a genuine regex with
flags `gi`.  `exec` may fault (`Except.error`), modelling a runtime error
thrown while scanning one rule. -/
structure RegexEngine where
  isValid : String → Bool
  exec : String → String → Except String (List (Nat × String))

/-- The result of the safe-compile step of `BaseAgent.matchPatterns`
(BaseAgent.ts lines 130-138): either the rule text as a genuine regex, or
the escaped text used as a literal-substring matcher. -/
inductive CompiledPattern where
  | regex (pat : String)
  | literalFallback (esc : String)
deriving DecidableEq

/-- BaseAgent.ts lines 130-138: try `new RegExp(text)`; on failure escape
every metacharacter and use the escaped text.  This never raises. -/
def compileRule (eng : RegexEngine) (patternText : String) : CompiledPattern :=
  if eng.isValid patternText then .regex patternText
  else .literalFallback (escapeRegexChars patternText)

/-- Matching one line with a compiled pattern.  The literal fallback
matches the character sequence denoted by the escaped text and never
faults. -/
def execCompiled (eng : RegexEngine) :
    CompiledPattern → String → Except String (List (Nat × String))
  | .regex p, line => eng.exec p line
  | .literalFallback esc, line =>
    .ok (litMatchAll (String.mk (unescapeChars esc.data)) line)

/-- JS split on newline, on character lists: split at every newline,
keeping empty segments (`[]` splits to `[[]]`). -/
def splitNl : List Char → List (List Char)
  | [] => [[]]
  | c :: rest =>
    let r := splitNl rest
    if c = '\n' then [] :: r
    else (c :: r.headI) :: r.tail

/-- JS split on newline, on strings (BaseAgent.ts line 126). -/
def jsSplitLines (code : String) : List String :=
  (splitNl code.data).map String.mk

/-- The snippet extractor `BaseAgent.extractSnippet` (BaseAgent.ts lines 96-101): the matched
line plus `context` lines around it, clipped to the file bounds.
JS `Math.max(0, _)` on the start index is Nat truncated subtraction. -/
def extractSnippet (code : String) (lineNumber : Nat) (context : Nat := 2) : String :=
  let lines := jsSplitLines code
  let start := lineNumber - context - 1
  let stop := min lines.length (lineNumber + context)
  String.intercalate "\n" ((lines.drop start).take (stop - start))

/-- The Finding built for one match of one rule on line `index` (0-based),
BaseAgent.ts lines 143-154.  `column_end` reproduces the JS truthiness test
`match.index ? match.index + match[0].length : undefined`: a match at
column 0 gets `undefined`. -/
def mkFinding (pattern : CodePattern) (code : String) (index : Nat)
    (m : Nat × String) : Finding :=
  { severity := pattern.severity
    category := pattern.category
    message := pattern.description
    line_start := some (index + 1)
    line_end := some (index + 1)
    column_start := some m.1
    column_end := if m.1 = 0 then none else some (m.1 + m.2.length)
    suggestion := pattern.example_fix
    code_snippet := some (extractSnippet code (index + 1) 2)
    pattern_match_id := some pattern.id }

/-- The numbered lines scanned by `matchPatterns`
(`code.split('\n')` with `forEach` indices). -/
def enumLines (code : String) : List (Nat × String) :=
  (jsSplitLines code).enum

/-- Scanning the numbered lines with one rule, pushing findings onto the
shared accumulator.  An engine fault (`Except.error`) stops this rule only;
the findings the rule pushed before the fault are kept, mirroring the
mutable `findings` array inside the per-rule `try` of BaseAgent.ts. -/
def scanRuleLines (eng : RegexEngine) (compiled : CompiledPattern)
    (pattern : CodePattern) (code : String) :
    List (Nat × String) → List Finding → List Finding
  | [], acc => acc
  | (index, line) :: rest, acc =>
    match execCompiled eng compiled line with
    | .ok ms =>
      scanRuleLines eng compiled pattern code rest
        (acc ++ ms.map (mkFinding pattern code index))
    | .error _ => acc

/-- The findings one rule contributes on its own. -/
def ruleFindings (eng : RegexEngine) (code : String) (pattern : CodePattern) :
    List Finding :=
  scanRuleLines eng (compileRule eng pattern.pattern_text) pattern code
    (enumLines code) []

/-- The matcher `BaseAgent.matchPatterns` (BaseAgent.ts lines 124-163): for each rule,
safe-compile the rule text, scan every line, and catch any per-rule fault
so that the remaining rules are still matched.  Total: it never raises. -/
def matchPatterns (eng : RegexEngine) (code : String)
    (patterns : List CodePattern) : List Finding :=
  patterns.foldl
    (fun acc pattern =>
      scanRuleLines eng (compileRule eng pattern.pattern_text) pattern code
        (enumLines code) acc)
    []

/-- JS `\w` word characters (`[A-Za-z0-9_]`), used by the `\b` boundary. -/
def isWordChar (c : Char) : Bool :=
  ('a' ≤ c && c ≤ 'z') || ('A' ≤ c && c ≤ 'Z') || ('0' ≤ c && c ≤ '9') || c = '_'

/-- Consume an exact literal prefix, returning the rest of the line. -/
def eatLit : List Char → List Char → Option (List Char)
  | [], l => some l
  | _ :: _, [] => none
  | c :: cs, d :: ds => if c = d then eatLit cs ds else none

/-- Consume `\s*` greedily (JS whitespace modelled by `Char.isWhitespace`). -/
def eatWs (l : List Char) : List Char := l.dropWhile (fun c => c.isWhitespace)

/-- Run a position test (receiving the previous character, for `\b`) at
every position of the line, as `RegExp.test` does. -/
def scanPos (test : Option Char → List Char → Bool) :
    Option Char → List Char → Bool
  | prev, [] => test prev []
  | prev, c :: cs => test prev (c :: cs) || scanPos test (some c) cs

/-- The test `/\beval\s*\(/` at one position. -/
def evalCallHere (prev : Option Char) (l : List Char) : Bool :=
  (match prev with | none => true | some p => !isWordChar p) &&
  (match eatLit "eval".data l with
   | some rest =>
     match eatWs rest with
     | '(' :: _ => true
     | _ => false
   | none => false)

/-- The check `/\beval\s*\(/.test(line)` (SecurityAgent.ts line 84). -/
def testEvalCall (l : List Char) : Bool := scanPos evalCallHere none l

/-- The test `/\.innerHTML\s*=/` at one position. -/
def innerHTMLHere (_ : Option Char) (l : List Char) : Bool :=
  match l with
  | '.' :: rest =>
    (match eatLit "innerHTML".data rest with
     | some rest2 =>
       match eatWs rest2 with
       | '=' :: _ => true
       | _ => false
     | none => false)
  | _ => false

/-- The check `/\.innerHTML\s*=/.test(line)` (SecurityAgent.ts line 97). -/
def testInnerHTMLAssign (l : List Char) : Bool := scanPos innerHTMLHere none l

/-- The test `/\b(eval|exec)\s*\(/` at one position. -/
def pyEvalExecHere (prev : Option Char) (l : List Char) : Bool :=
  (match prev with | none => true | some p => !isWordChar p) &&
  (match
      (match eatLit "eval".data l with
       | some r => some r
       | none => eatLit "exec".data l) with
   | some rest =>
     match eatWs rest with
     | '(' :: _ => true
     | _ => false
   | none => false)

/-- The check `/\b(eval|exec)\s*\(/.test(line)` (SecurityAgent.ts line 132). -/
def testPyEvalExec (l : List Char) : Bool := scanPos pyEvalExecHere none l

/-- The test `/execute\s*\([^)]*SEP[^)]*\)/` at one position, for a separator `sep`
(`%s` or `+`): after `execute`, optional space, `(`, the run of
non-`)` characters must contain `sep`, and a `)` must follow. -/
def sqlExecuteHere (sep : List Char) (_ : Option Char) (l : List Char) : Bool :=
  match eatLit "execute".data l with
  | some rest =>
    (match eatWs rest with
     | '(' :: inside =>
       inside.any (fun c => c = ')') &&
         occursIn sep (inside.takeWhile (fun c => c ≠ ')'))
     | _ => false)
  | none => false

/-- The SQL-injection test of SecurityAgent.ts line 145: either alternative. -/
def testPySqlInjection (l : List Char) : Bool :=
  scanPos (sqlExecuteHere "%s".data) none l ||
  scanPos (sqlExecuteHere "+".data) none l

/-- Consume up to and including the first occurrence of `pat`. -/
def dropAfterFirst (pat : List Char) : List Char → Option (List Char)
  | [] => if pat.isEmpty then some [] else none
  | c :: cs =>
    match eatLit pat (c :: cs) with
    | some rest => some rest
    | none => dropAfterFirst pat cs

/-- The check `/Statement.*execute.*\+/.test(line)` (SecurityAgent.ts line 167). -/
def testJavaSqlInjection (l : List Char) : Bool :=
  match dropAfterFirst "Statement".data l with
  | some r1 =>
    (match dropAfterFirst "execute".data r1 with
     | some r2 => r2.any (fun c => c = '+')
     | none => false)
  | none => false

/-- The heuristics `SecurityAgent.checkJavaScriptSecurity` (SecurityAgent.ts lines 78-124). -/
def checkJavaScriptSecurity (code : String) : List Finding :=
  (enumLines code).flatMap (fun il =>
    (if testEvalCall il.2.data then
      [{ severity := .critical, category := "security",
         message := "Use of eval() is dangerous and can lead to code injection",
         line_start := some (il.1 + 1), line_end := some (il.1 + 1),
         suggestion := some "Avoid eval(). Use safer alternatives like JSON.parse() for data or Function constructor with caution",
         code_snippet := some (extractSnippet code (il.1 + 1) 2) }]
     else []) ++
    (if testInnerHTMLAssign il.2.data then
      [{ severity := .high, category := "security",
         message := "Direct innerHTML assignment can lead to XSS vulnerabilities",
         line_start := some (il.1 + 1), line_end := some (il.1 + 1),
         suggestion := some "Use textContent or sanitize HTML with DOMPurify",
         code_snippet := some (extractSnippet code (il.1 + 1) 2) }]
     else []) ++
    (if occursIn "dangerouslySetInnerHTML".data il.2.data then
      [{ severity := .high, category := "security",
         message := "dangerouslySetInnerHTML can introduce XSS vulnerabilities",
         line_start := some (il.1 + 1), line_end := some (il.1 + 1),
         suggestion := some "Sanitize HTML content before using dangerouslySetInnerHTML",
         code_snippet := some (extractSnippet code (il.1 + 1) 2) }]
     else []))

/-- The heuristics `SecurityAgent.checkPythonSecurity` (SecurityAgent.ts lines 126-159). -/
def checkPythonSecurity (code : String) : List Finding :=
  (enumLines code).flatMap (fun il =>
    (if testPyEvalExec il.2.data then
      [{ severity := .critical, category := "security",
         message := "Use of eval()/exec() can lead to arbitrary code execution",
         line_start := some (il.1 + 1), line_end := some (il.1 + 1),
         suggestion := some "Use ast.literal_eval() for safe evaluation of literals",
         code_snippet := some (extractSnippet code (il.1 + 1) 2) }]
     else []) ++
    (if testPySqlInjection il.2.data then
      [{ severity := .critical, category := "security",
         message := "Potential SQL injection vulnerability",
         line_start := some (il.1 + 1), line_end := some (il.1 + 1),
         suggestion := some "Use parameterized queries instead of string concatenation",
         code_snippet := some (extractSnippet code (il.1 + 1) 2) }]
     else []))

/-- The heuristics `SecurityAgent.checkJavaSecurity` (SecurityAgent.ts lines 161-181). -/
def checkJavaSecurity (code : String) : List Finding :=
  (enumLines code).flatMap (fun il =>
    (if testJavaSqlInjection il.2.data then
      [{ severity := .critical, category := "security",
         message := "Potential SQL injection vulnerability",
         line_start := some (il.1 + 1), line_end := some (il.1 + 1),
         suggestion := some "Use PreparedStatement with parameterized queries",
         code_snippet := some (extractSnippet code (il.1 + 1) 2) }]
     else []))

/-- The dispatch `SecurityAgent.languageSpecificChecks` (SecurityAgent.ts lines 59-76). -/
def languageSpecificChecks (code language : String) : List Finding :=
  let ll := language.toLower
  if ll = "javascript" || ll = "typescript" then checkJavaScriptSecurity code
  else if ll = "python" then checkPythonSecurity code
  else if ll = "java" then checkJavaSecurity code
  else []

/-- The pipeline `SecurityAgent.analyze` (SecurityAgent.ts lines 6-57) with the LLM
collaborator unconfigured (`isLLMConfigured()` returns false, so the AI
stage contributes nothing): the pattern stage over the rules fetched for
the submission, then the language-specific heuristic stage. -/
def securityAnalyzeNoLLM (eng : RegexEngine) (patterns : List CodePattern)
    (code language : String) : List Finding :=
  matchPatterns eng code patterns ++ languageSpecificChecks code language

/-- The `eval(` rule of the seed rule library (migration 003 seed data for
`code_patterns`): category security, severity critical, language
javascript.  The database generates the row id, a parameter here. -/
def evalRule (id : String) : CodePattern :=
  { id := id
    pattern_text := "eval("
    category := "security"
    severity := .critical
    description := "Use of eval() can lead to code injection vulnerabilities"
    language := "javascript"
    example_fix := some "Use JSON.parse() for parsing JSON or safer alternatives" }

/-- Agent lifecycle status (`types/index.ts` line 8). -/
inductive AgentStatus where
  | idle
  | analyzing
  | error
deriving DecidableEq

/-- Submission lifecycle status (`types/index.ts` line 19). -/
inductive SubmissionStatus where
  | pending
  | analyzing
  | completed
  | failed
deriving DecidableEq

/-- Forward position along the submission lifecycle chain
`pending → analyzing → (completed | failed)`. -/
def statusRank : SubmissionStatus → Nat
  | .pending => 0
  | .analyzing => 1
  | .completed => 2
  | .failed => 2

/-- The terminal lifecycle states. -/
def isTerminal : SubmissionStatus → Bool
  | .completed => true
  | .failed => true
  | _ => false

/-- One row of the `agents` table as the orchestrator uses it. -/
structure AgentRow where
  id : String
  name : String
  specialty : String
  status : AgentStatus
deriving DecidableEq

/-- One row of `analysis_results` as written by `analyzeCode`
(index.ts lines 438-442). -/
structure StoredResult where
  submission_id : String
  agent_id : String
  findings : List Finding
  confidence : ℚ
  execution_time_ms : Nat
deriving DecidableEq

/-- The durable store as the orchestrator touches it, plus a ghost log
recording every status value written to `code_submissions` (each
`INSERT`/`UPDATE` appends `(id, status)` in execution order). -/
structure DBState where
  agents : List AgentRow
  submissions : List (String × SubmissionStatus)
  results : List StoredResult
  statusLog : List (String × SubmissionStatus) := []
deriving DecidableEq

/-- The write `AgentFactory.updateAgentStatus` (ForkManager.ts lines 180-192). -/
def setAgentStatus (agents : List AgentRow) (id : String) (st : AgentStatus) :
    List AgentRow :=
  agents.map (fun a => if a.id = id then { a with status := st } else a)

/-- The roster query `AgentFactory.getAvailableAgents` (ForkManager.ts lines 158-167):
`WHERE status != 'error'`.  The `ORDER BY specialty` reordering plays no
role in any claim and is omitted. -/
def getAvailableAgents (agents : List AgentRow) : List AgentRow :=
  agents.filter (fun a => a.status ≠ AgentStatus.error)

/-- Roster resolution of `analyzeCode` (index.ts lines 404-408): the
requested subset of the available agents, or all available agents. -/
def rosterFor (requestedAgents : Option (List String)) (agents : List AgentRow) :
    List AgentRow :=
  let allAgents := getAvailableAgents agents
  match requestedAgents with
  | some req => allAgents.filter (fun a => req.contains a.specialty)
  | none => allAgents

/-- The outcome of one agent pipeline (`agentInstance.analyze` plus its
execution time): the findings and duration, or a thrown error. -/
abbrev PipelineOutcome := Except String (List Finding × Nat)

/-- The `type` field of a broadcast WebSocket message
(`types/index.ts` line 113). -/
inductive WSMsgType where
  | analysis_started
  | agent_progress
  | analysis_complete
  | errorMsg
deriving DecidableEq

/-- A broadcast message, payload abstracted to a string. -/
structure WSMessage where
  msgType : WSMsgType
  payload : String
deriving DecidableEq

/-- The statement `UPDATE code_submissions SET status = _ WHERE id = _`
(index.ts lines 458-461 and 475-478), ghost-logged. -/
def setSubmissionStatus (st : DBState) (id : String) (s : SubmissionStatus) :
    DBState :=
  { st with
    submissions := st.submissions.map (fun e => if e.1 = id then (e.1, s) else e)
    statusLog := st.statusLog ++ [(id, s)] }

/-- The statement `INSERT INTO code_submissions ...` with status analyzing
(index.ts lines 117-121), ghost-logged. -/
def insertSubmission (st : DBState) (id : String) (s : SubmissionStatus) :
    DBState :=
  { st with
    submissions := st.submissions ++ [(id, s)]
    statusLog := st.statusLog ++ [(id, s)] }

/-- One branch of the per-agent fan-out of `analyzeCode`
(index.ts lines 411-453): mark the agent analyzing, run its pipeline
(each progress callback broadcast as an `agent_progress` event), and on
success insert the `AnalysisResult` row — with the confidence of
index.ts line 435 — and mark the agent idle; on a pipeline error mark the
agent `error`.  Returns the new state, the broadcast events, and whether
the pipeline succeeded. -/
def runAgent (outcome : String → PipelineOutcome)
    (progressOf : String → List String) (submissionId : String)
    (agent : AgentRow) (st : DBState) : DBState × List WSMessage × Bool :=
  let st1 := { st with agents := setAgentStatus st.agents agent.id .analyzing }
  let evs : List WSMessage :=
    (progressOf agent.id).map (fun step => ⟨.agent_progress, step⟩)
  match outcome agent.id with
  | .ok (findings, ms) =>
    let st2 := { st1 with
      results := st1.results ++
        [({ submission_id := submissionId, agent_id := agent.id,
            findings := findings, confidence := storedConfidence findings,
            execution_time_ms := ms } : StoredResult)] }
    ({ st2 with agents := setAgentStatus st2.agents agent.id .idle }, evs, true)
  | .error _ =>
    ({ st1 with agents := setAgentStatus st1.agents agent.id .error }, evs, false)

/-- The fan-out over the selected agents, linearized in roster order (the
claims proved below are completion-order independent), joined `Promise.all`
style: overall success iff every pipeline succeeded. -/
def runAgents (outcome : String → PipelineOutcome)
    (progressOf : String → List String) (submissionId : String) :
    List AgentRow → DBState → DBState × List WSMessage × Bool
  | [], st => (st, [], true)
  | a :: rest, st =>
    let r1 := runAgent outcome progressOf submissionId a st
    let r2 := runAgents outcome progressOf submissionId rest r1.1
    (r2.1, r1.2.1 ++ r2.2.1, r1.2.2 && r2.2.2)

/-- The orchestrator `analyzeCode` (index.ts lines 387-481) composed with the `.catch` of
its caller (index.ts lines 124-133), which broadcasts the `error` event:
broadcast `analysis_started`, resolve the roster, run one pipeline per
selected agent, then join.  If every pipeline succeeded, the submission
becomes `completed` and `analysis_complete` is broadcast; if any failed,
it becomes `failed` and an `error` event is broadcast. -/
def analyzeCodeModel (outcome : String → PipelineOutcome)
    (progressOf : String → List String) (submissionId : String)
    (requestedAgents : Option (List String)) (st : DBState) :
    DBState × List WSMessage × Bool :=
  let agentsToRun := rosterFor requestedAgents st.agents
  let r := runAgents outcome progressOf submissionId agentsToRun st
  if r.2.2 then
    (setSubmissionStatus r.1 submissionId .completed,
     ⟨.analysis_started, submissionId⟩ :: r.2.1 ++
       [⟨.analysis_complete, submissionId⟩],
     true)
  else
    (setSubmissionStatus r.1 submissionId .failed,
     ⟨.analysis_started, submissionId⟩ :: r.2.1 ++
       [⟨.errorMsg, "Analysis failed"⟩],
     false)

/-- The endpoint `POST /api/analyze` (index.ts lines 99-143): insert the submission
(status `analyzing`, fresh id) and run the analysis. -/
def handleAnalyze (outcome : String → PipelineOutcome)
    (progressOf : String → List String) (submissionId : String)
    (requestedAgents : Option (List String)) (st : DBState) :
    DBState × List WSMessage :=
  let st0 := insertSubmission st submissionId .analyzing
  let r := analyzeCodeModel outcome progressOf submissionId requestedAgents st0
  (r.1, r.2.1)

/-- The aggregate summary shape of `GET /api/analysis/:submissionId`
(index.ts lines 165-172). -/
structure Summary where
  total_findings : Nat
  critical_count : Nat
  high_count : Nat
  medium_count : Nat
  low_count : Nat
  info_count : Nat
deriving DecidableEq

/-- The zero-initialized summary (index.ts lines 165-172). -/
def emptySummary : Summary := ⟨0, 0, 0, 0, 0, 0⟩

/-- One iteration of the tally loop (index.ts lines 174-182): bump the
total and the counter keyed by the finding severity. -/
def bumpFinding (s : Summary) (f : Finding) : Summary :=
  let s := { s with total_findings := s.total_findings + 1 }
  match f.severity with
  | .critical => { s with critical_count := s.critical_count + 1 }
  | .high => { s with high_count := s.high_count + 1 }
  | .medium => { s with medium_count := s.medium_count + 1 }
  | .low => { s with low_count := s.low_count + 1 }
  | .info => { s with info_count := s.info_count + 1 }

/-- The summary tally of index.ts lines 174-182: fold over the stored
results, then over each result's findings. -/
def summarize (results : List StoredResult) : Summary :=
  results.foldl (fun s r => r.findings.foldl bumpFinding s) emptySummary

/-- The per-severity counter of a summary. -/
def severityCount (s : Summary) : Severity → Nat
  | .critical => s.critical_count
  | .high => s.high_count
  | .medium => s.medium_count
  | .low => s.low_count
  | .info => s.info_count

/-- The stored `AnalysisResults` read back for one submission. -/
def resultsFor (st : DBState) (subId : String) : List StoredResult :=
  st.results.filter (fun r => r.submission_id = subId)

/-- The endpoint `GET /api/analysis/:submissionId` summary: recomputed on every read
from the stored results, never cached. -/
def getAnalysisSummary (st : DBState) (subId : String) : Summary :=
  summarize (resultsFor st subId)

/-- The per-submission observer registry (the `wsConnections` map of
index.ts line 33), observers numbered by `Nat`. -/
abbrev Registry := List (String × List Nat)

/-- The observers currently attached to a submission
(`wsConnections.get(submissionId)`, empty when absent). -/
def lookupObservers (reg : Registry) (subId : String) : List Nat :=
  match reg.lookup subId with
  | some obs => obs
  | none => []

/-- The subscribe handler (index.ts lines 327-343): create the entry on
demand and add the socket to the submission's set. -/
def subscribeReg (reg : Registry) (subId : String) (obs : Nat) : Registry :=
  if reg.any (fun e => e.1 = subId) then
    reg.map (fun e =>
      if e.1 = subId then
        (e.1, if e.2.contains obs then e.2 else e.2 ++ [obs])
      else e)
  else reg ++ [(subId, [obs])]

/-- An operation on the progress bus: an observer subscribing, or a
pipeline publishing an event (`broadcastToSubmission`,
index.ts lines 374-384). -/
inductive BusOp where
  | subscribe (obs : Nat) (subId : String)
  | publish (subId : String) (msg : WSMessage)
deriving DecidableEq

/-- Running a sequence of bus operations: each publish delivers its
message to exactly the observers attached to that submission at that
moment.  Nothing is stored, so there is no replay. -/
def runBus (reg : Registry) : List BusOp → List (Nat × WSMessage)
  | [] => []
  | BusOp.subscribe o s :: rest => runBus (subscribeReg reg s o) rest
  | BusOp.publish s m :: rest =>
    (lookupObservers reg s).map (fun o => (o, m)) ++ runBus reg rest

/-- The registry after a sequence of bus operations. -/
def advanceReg (reg : Registry) : List BusOp → Registry
  | [] => reg
  | BusOp.subscribe o s :: rest => advanceReg (subscribeReg reg s o) rest
  | BusOp.publish _ _ :: rest => advanceReg reg rest

/-- End-to-end scenario 3 trace: publish every event of a run except the
last, then attach a fresh observer, then publish the last event. -/
def lateSubscriberOps (evs : List WSMessage) (subId : String) (obs : Nat) :
    List BusOp :=
  (evs.dropLast.map (BusOp.publish subId)) ++ [BusOp.subscribe obs subId] ++
    ((evs.getLast?).elim [] (fun m => [BusOp.publish subId m]))

/-- A regex engine on which no rule text compiles and every genuine-regex
scan faults: the worst collaborator the matcher must survive. -/
def litEngine : RegexEngine :=
  ⟨fun _ => false, fun _ _ => Except.error "fault"⟩

/-- A malformed-regex rule from the testable properties of the spec. -/
def funcRule : CodePattern :=
  { id := "rule-func"
    pattern_text := "function("
    category := "best-practices"
    severity := .low
    description := "Anonymous function expression"
    language := "javascript"
    example_fix := none }

/-- Whether a pipeline outcome is a success. -/
def outcomeOk : PipelineOutcome → Bool
  | .ok _ => true
  | .error _ => false

/-- The `analysis_results` rows one agent's run inserts
(index.ts lines 438-442): one row on success, none on failure. -/
def resultRowsOf (submissionId : String) (outcome : String → PipelineOutcome)
    (a : AgentRow) : List StoredResult :=
  match outcome a.id with
  | .ok (fs, ms) =>
    [{ submission_id := submissionId, agent_id := a.id, findings := fs,
       confidence := storedConfidence fs, execution_time_ms := ms }]
  | .error _ => []

/-- A concrete agent row, as seeded by migration 003. -/
def cxAgent : AgentRow :=
  { id := "agent-1", name := "Security Sentinel", specialty := "security",
    status := .idle }

/-- A concrete critical finding. -/
def cxFinding : Finding :=
  { severity := .critical, category := "security",
    message := "Use of eval() is dangerous and can lead to code injection" }

/-- A concrete initial store with one idle agent and nothing else. -/
def cxState : DBState :=
  { agents := [cxAgent], submissions := [], results := [], statusLog := [] }

/-- A pipeline behavior where every agent succeeds with one critical
finding in 5 ms. -/
def cxOkOutcome : String → PipelineOutcome := fun _ => .ok ([cxFinding], 5)

/-- A pipeline behavior where every agent fails structurally. -/
def cxBadOutcome : String → PipelineOutcome := fun _ => .error "store unreachable"

/-- Pipelines that publish no progress events. -/
def cxNoProgress : String → List String := fun _ => []

/-- The store after one successful concrete run. -/
def cxRun : DBState :=
  (handleAnalyze cxOkOutcome cxNoProgress "sub-1" none cxState).1

/-- The single result row the concrete successful run stores. -/
def cxRow : StoredResult :=
  { submission_id := "sub-1", agent_id := "agent-1", findings := [cxFinding],
    confidence := 17/20, execution_time_ms := 5 }

/-- A second concrete agent row. -/
def cxAgent2 : AgentRow :=
  { id := "agent-2", name := "Performance Optimizer",
    specialty := "performance", status := .idle }

/-- A concrete store with two idle agents. -/
def cxState2 : DBState :=
  { agents := [cxAgent, cxAgent2], submissions := [], results := [],
    statusLog := [] }

/-- A pipeline behavior where agent 1 fails and everyone else succeeds. -/
def cxMixedOutcome : String → PipelineOutcome := fun id =>
  if id = "agent-1" then .error "store unreachable" else .ok ([], 3)

-- ===== theorems =====

/-- The backslash is one of the escaped metacharacters. -/
theorem isRegexMeta_backslash : isRegexMeta '\\' = true := by
  simp [isRegexMeta]

/-- Escaping followed by interpretation of the escapes gives back the
original rule text: the fallback matcher denotes the literal rule text. -/
theorem unescape_escape (l : List Char) :
    unescapeChars (escapeChars l) = l := by
  induction l with
  | nil => rfl
  | cons c rest ih =>
    by_cases h : isRegexMeta c = true
    · simp [escapeChars, h, unescapeChars, ih]
    · have hc : c ≠ '\\' := by
        intro hcc
        rw [hcc] at h
        exact h isRegexMeta_backslash
      have hesc : escapeChars (c :: rest) = c :: escapeChars rest := by
        simp [escapeChars, h]
      have hune : unescapeChars (c :: escapeChars rest)
          = if c = '\\' then
              (match escapeChars rest with
               | [] => [c]
               | d :: rest2 => d :: unescapeChars rest2)
            else c :: unescapeChars (escapeChars rest) := by
        rw [unescapeChars.eq_def]
      rw [hesc, hune, if_neg hc, ih]

/-- The scan `scanRuleLines` only appends to the accumulator. -/
theorem scanRuleLines_acc (eng : RegexEngine) (compiled : CompiledPattern)
    (pattern : CodePattern) (code : String) (lines : List (Nat × String))
    (acc : List Finding) :
    scanRuleLines eng compiled pattern code lines acc
      = acc ++ scanRuleLines eng compiled pattern code lines [] := by
  induction lines generalizing acc with
  | nil => simp [scanRuleLines]
  | cons il rest ih =>
    obtain ⟨index, line⟩ := il
    simp only [scanRuleLines]
    cases execCompiled eng compiled line with
    | ok ms =>
      have h1 := ih (acc ++ ms.map (mkFinding pattern code index))
      have h2 := ih (ms.map (mkFinding pattern code index))
      simp only [List.nil_append]
      rw [h1, h2]
      simp [List.append_assoc]
    | error e => simp

/-- The fold of `matchPatterns` from an accumulator. -/
theorem matchPatterns_foldl_acc (eng : RegexEngine) (code : String)
    (patterns : List CodePattern) (acc : List Finding) :
    patterns.foldl
      (fun acc pattern =>
        scanRuleLines eng (compileRule eng pattern.pattern_text) pattern code
          (enumLines code) acc) acc
      = acc ++ matchPatterns eng code patterns := by
  induction patterns generalizing acc with
  | nil => simp [matchPatterns]
  | cons p rest ih =>
    simp only [matchPatterns, List.foldl_cons]
    rw [ih, ih, scanRuleLines_acc]
    simp

/-- Matching a concatenation of rule lists matches each part: a fault in
one rule never aborts the matching of the rules after it. -/
theorem matchPatterns_append (eng : RegexEngine) (code : String)
    (ps₁ ps₂ : List CodePattern) :
    matchPatterns eng code (ps₁ ++ ps₂)
      = matchPatterns eng code ps₁ ++ matchPatterns eng code ps₂ := by
  simp only [matchPatterns, List.foldl_append]
  rw [show (List.foldl _ ([] : List Finding) ps₁) = matchPatterns eng code ps₁ from rfl,
    matchPatterns_foldl_acc]
  rfl

/-- One rule's contribution inside the full scan. -/
theorem matchPatterns_cons (eng : RegexEngine) (code : String)
    (p : CodePattern) (ps : List CodePattern) :
    matchPatterns eng code (p :: ps)
      = ruleFindings eng code p ++ matchPatterns eng code ps := by
  simp only [matchPatterns, List.foldl_cons]
  rw [matchPatterns_foldl_acc]
  rfl

/-- An exact prefix is also a case-insensitive prefix. -/
theorem isPrefixCI_of_isPrefixOf (pat l : List Char)
    (h : pat.isPrefixOf l = true) : isPrefixCI pat l = true := by
  have hp : pat <+: l := List.isPrefixOf_iff_prefix.mp h
  have hm : lowerChars pat <+: lowerChars l := hp.map Char.toLower
  exact List.isPrefixOf_iff_prefix.mpr hm

/-- An exact occurrence is also a case-insensitive occurrence. -/
theorem occursCI_of_occursIn (pat : List Char) :
    ∀ l : List Char, occursIn pat l = true → occursCI pat l = true := by
  intro l
  induction l with
  | nil =>
    intro h
    simp only [occursIn] at h
    simp only [occursCI]
    exact isPrefixCI_of_isPrefixOf _ _ h
  | cons c cs ih =>
    intro h
    simp only [occursIn, Bool.or_eq_true] at h
    simp only [occursCI, Bool.or_eq_true]
    rcases h with h | h
    · exact Or.inl (isPrefixCI_of_isPrefixOf _ _ h)
    · exact Or.inr (ih h)

/-- A non-empty pattern that occurs (case-insensitively) in a line is
found by the literal scanner: the match list is non-empty. -/
theorem litScan_ne_nil (pat : List Char) (hpat : pat ≠ []) :
    ∀ (l : List Char) (pos : Nat), occursCI pat l = true →
      litScan pat l pos ≠ [] := by
  intro l
  induction l with
  | nil =>
    intro pos h
    exfalso
    obtain ⟨p, pr, hpr⟩ := List.exists_cons_of_ne_nil hpat
    subst hpr
    simp [occursCI, isPrefixCI, lowerChars, List.isPrefixOf] at h
  | cons c cs ih =>
    intro pos h
    by_cases hp : isPrefixCI pat (c :: cs) = true
    · rw [litScan.eq_def]
      simp [hp]
    · rw [litScan.eq_def]
      simp only [hp, Bool.false_eq_true, if_false]
      apply ih
      simp only [occursCI, Bool.or_eq_true] at h
      rcases h with h | h
      · exact absurd h hp
      · exact h

/-- Scanning a numbered-line list with the literal fallback: every line
contributes the findings of its literal matches, and the scan never
faults. -/
theorem scanRuleLines_literal (eng : RegexEngine) (esc : String)
    (pattern : CodePattern) (code : String) (lines : List (Nat × String))
    (acc : List Finding) :
    scanRuleLines eng (.literalFallback esc) pattern code lines acc
      = acc ++ lines.flatMap (fun il =>
          (litMatchAll (String.mk (unescapeChars esc.data)) il.2).map
            (mkFinding pattern code il.1)) := by
  induction lines generalizing acc with
  | nil => simp [scanRuleLines]
  | cons il rest ih =>
    obtain ⟨index, line⟩ := il
    simp only [scanRuleLines, execCompiled]
    rw [ih]
    simp [List.append_assoc]

/-- A string differing from `""` has a non-empty character list. -/
theorem string_data_ne_nil (s : String) (h : s ≠ "") : s.data ≠ [] := by
  intro hd
  apply h
  cases s
  simp_all

/-- A rule whose text does not compile as a regex contributes exactly the
literal matches of its (escaped, then literally interpreted) text. -/
theorem ruleFindings_invalid (eng : RegexEngine) (code : String)
    (pattern : CodePattern)
    (h : eng.isValid pattern.pattern_text = false) :
    ruleFindings eng code pattern
      = (enumLines code).flatMap (fun il =>
          (litMatchAll pattern.pattern_text il.2).map
            (mkFinding pattern code il.1)) := by
  have hkey : String.mk (unescapeChars (escapeRegexChars pattern.pattern_text).data)
      = pattern.pattern_text := by
    have h2 : (escapeRegexChars pattern.pattern_text).data
        = escapeChars pattern.pattern_text.data := rfl
    rw [h2, unescape_escape]
  unfold ruleFindings
  rw [show compileRule eng pattern.pattern_text
      = CompiledPattern.literalFallback (escapeRegexChars pattern.pattern_text) from by
    simp [compileRule, h]]
  rw [scanRuleLines_literal, hkey]
  simp

/-- Every member of a list appears in its numbering. -/
theorem mem_enumFrom_of_mem {α : Type} {a : α} :
    ∀ (l : List α) (n : Nat), a ∈ l → ∃ i, (i, a) ∈ l.enumFrom n := by
  intro l
  induction l with
  | nil => intro n h; cases h
  | cons x xs ih =>
    intro n h
    rcases List.mem_cons.mp h with h | h
    · exact ⟨n, by simp [List.enumFrom, h]⟩
    · obtain ⟨i, hi⟩ := ih (n + 1) h
      exact ⟨i, by simp [List.enumFrom, hi]⟩

/-- Splitting never yields an empty list of segments. -/
theorem splitNl_ne_nil : ∀ l : List Char, splitNl l ≠ [] := by
  intro l
  cases l with
  | nil => simp [splitNl]
  | cons c rest =>
    simp only [splitNl]
    by_cases hc : c = '\n' <;> simp [hc]

/-- The first segment of the split is the run of characters before the
first newline. -/
theorem splitNl_headI :
    ∀ l : List Char, (splitNl l).headI = l.takeWhile (fun c => c ≠ '\n') := by
  intro l
  induction l with
  | nil => simp [splitNl]
  | cons c rest ih =>
    by_cases hc : c = '\n'
    · subst hc
      simp [splitNl, List.takeWhile]
    · simp [splitNl, hc, List.takeWhile, ih]

/-- A newline-free prefix survives truncation at the first newline. -/
theorem isPrefixOf_takeWhile (pat : List Char) (hnl : '\n' ∉ pat) :
    ∀ l : List Char, pat.isPrefixOf l = true →
      pat.isPrefixOf (l.takeWhile (fun c => c ≠ '\n')) = true := by
  induction pat with
  | nil => intro l _; simp [List.isPrefixOf]
  | cons p ps ih =>
    intro l h
    cases l with
    | nil => simp [List.isPrefixOf] at h
    | cons x xs =>
      simp only [List.isPrefixOf, Bool.and_eq_true, beq_iff_eq] at h
      obtain ⟨rfl, h2⟩ := h
      have hp : p ≠ '\n' := fun hh => hnl (hh ▸ List.mem_cons_self p ps)
      have hps : '\n' ∉ ps := fun hh => hnl (List.mem_cons_of_mem _ hh)
      have htail := ih hps xs h2
      simp [List.takeWhile_cons, hp, List.isPrefixOf]
      rw [show (fun c : Char => !decide (c = '\n'))
          = (fun c : Char => decide (c ≠ '\n')) from by
        funext c
        by_cases hh : c = '\n' <;> simp [hh]]
      exact List.isPrefixOf_iff_prefix.mp htail

/-- A newline-free pattern occurring in a text occurs inside one of the
text's lines. -/
theorem occurs_in_some_line (pat : List Char) (hnl : '\n' ∉ pat) :
    ∀ l : List Char, occursIn pat l = true →
      ∃ d ∈ splitNl l, occursIn pat d = true := by
  intro l
  induction l with
  | nil =>
    intro h
    exact ⟨[], by simp [splitNl], h⟩
  | cons c cs ih =>
    intro h
    simp only [occursIn, Bool.or_eq_true] at h
    by_cases hc : c = '\n'
    · subst hc
      rcases h with h | h
      · have hpat : pat = [] := by
          cases pat with
          | nil => rfl
          | cons p pr =>
            simp only [List.isPrefixOf, Bool.and_eq_true, beq_iff_eq] at h
            exact absurd (h.1 ▸ List.mem_cons_self p pr) hnl
        subst hpat
        exact ⟨[], by simp [splitNl], by simp [occursIn, List.isPrefixOf]⟩
      · obtain ⟨d, hd, hocc⟩ := ih h
        refine ⟨d, ?_, hocc⟩
        simp only [splitNl, if_pos rfl]
        exact List.mem_cons_of_mem _ hd
    · have hsplit : splitNl (c :: cs)
          = (c :: (splitNl cs).headI) :: (splitNl cs).tail := by
        simp [splitNl, hc]
      rcases h with h | h
      · refine ⟨c :: (splitNl cs).headI, by rw [hsplit]; exact List.mem_cons_self _ _, ?_⟩
        have htw := isPrefixOf_takeWhile pat hnl (c :: cs) h
        have : (c :: cs).takeWhile (fun x => x ≠ '\n')
            = c :: cs.takeWhile (fun x => x ≠ '\n') := by
          simp [List.takeWhile, hc]
        rw [this] at htw
        rw [splitNl_headI]
        cases pat with
        | nil => simp [occursIn, List.isPrefixOf]
        | cons p pr =>
          simp only [occursIn, Bool.or_eq_true]
          exact Or.inl htw
      · obtain ⟨d, hd, hocc⟩ := ih h
        obtain ⟨hd0, tl, hsp⟩ :
            ∃ hd0 tl, splitNl cs = hd0 :: tl := by
          cases hh : splitNl cs with
          | nil => exact absurd hh (splitNl_ne_nil cs)
          | cons a b => exact ⟨a, b, rfl⟩
        rw [hsp] at hd
        rcases List.mem_cons.mp hd with rfl | hd
        · refine ⟨c :: (splitNl cs).headI, by rw [hsplit]; exact List.mem_cons_self _ _, ?_⟩
          rw [hsp]
          simp only [List.headI, occursIn, Bool.or_eq_true]
          exact Or.inr hocc
        · refine ⟨d, ?_, hocc⟩
          rw [hsplit, hsp]
          simp only [List.tail]
          exact List.mem_cons_of_mem _ hd

/-- Each severity weight lies between 1/5 and 1. -/
theorem severityWeight_bounds (s : Severity) :
    1/5 ≤ severityWeight s ∧ severityWeight s ≤ 1 := by
  cases s <;> norm_num [severityWeight]

/-- C3: the confidence scorer returns exactly 1.0 on the empty finding
list; on every non-empty list it returns `min 1 (averageWeight + 0.2)` with
weights critical = 1, high = 0.8, medium = 0.6, low = 0.4, info = 0.2; and
the result always lies in the interval `[0, 1]`. -/
theorem confidence_scorer_spec (findings : List Finding) :
    (findings = [] → calculateConfidence findings = 1) ∧
    (findings ≠ [] →
      calculateConfidence findings
        = min 1 ((findings.map (fun f => severityWeight f.severity)).sum
            / findings.length + 1/5)) ∧
    0 ≤ calculateConfidence findings ∧ calculateConfidence findings ≤ 1 := by
  refine ⟨fun h => by simp [calculateConfidence, h], fun h => ?_, ?_, ?_⟩
  · have hlen : findings.length ≠ 0 := by simpa using h
    simp [calculateConfidence, hlen]
  · by_cases h : findings.length = 0
    · simp [calculateConfidence, h]
    · have hsum : 0 ≤ (findings.map (fun f => severityWeight f.severity)).sum := by
        apply List.sum_nonneg
        intro x hx
        obtain ⟨f, _, rfl⟩ := List.mem_map.mp hx
        have := (severityWeight_bounds f.severity).1
        linarith
      have hn : (0:ℚ) ≤ (findings.length : ℚ) := by positivity
      have : 0 ≤ (findings.map (fun f => severityWeight f.severity)).sum / findings.length :=
        div_nonneg hsum hn
      simp only [calculateConfidence, h, if_false]
      refine le_min (by norm_num) (by linarith)
  · by_cases h : findings.length = 0
    · simp [calculateConfidence, h]
    · simp only [calculateConfidence, h, if_false]
      exact min_le_left _ _

/-- Witness for C3: the scorer evaluated on the concrete lists `[]` and
`[one info finding]`. -/
theorem confidence_scorer_spec_witness :
    (([] : List Finding) = [] → calculateConfidence [] = 1) ∧
    (([⟨Severity.info, "c", "m", none, none, none, none, none, none, none⟩] :
        List Finding) ≠ [] →
      calculateConfidence [⟨Severity.info, "c", "m", none, none, none, none, none, none, none⟩]
        = min 1 ((([⟨Severity.info, "c", "m", none, none, none, none, none, none, none⟩] :
            List Finding).map (fun f => severityWeight f.severity)).sum
            / ([⟨Severity.info, "c", "m", none, none, none, none, none, none, none⟩] :
            List Finding).length + 1/5)) ∧
    0 ≤ calculateConfidence [] ∧ calculateConfidence [] ≤ 1 :=
  ⟨(confidence_scorer_spec []).1,
   (confidence_scorer_spec [⟨Severity.info, "c", "m", none, none, none, none, none, none, none⟩]).2.1,
   (confidence_scorer_spec []).2.2.1, (confidence_scorer_spec []).2.2.2⟩

/-- A rule whose text does not compile as a regex still finds every line
containing its text: the literal fallback contributes a finding at each
such line, carrying the rule's metadata. -/
theorem ruleFindings_has_match (eng : RegexEngine) (code : String)
    (pattern : CodePattern) (i : Nat) (line : String)
    (hinvalid : eng.isValid pattern.pattern_text = false)
    (hne : pattern.pattern_text ≠ "")
    (hmem : (i, line) ∈ enumLines code)
    (hocc : occursCI pattern.pattern_text.data line.data = true) :
    ∃ f ∈ ruleFindings eng code pattern,
      f.line_start = some (i + 1) ∧ f.pattern_match_id = some pattern.id ∧
      f.severity = pattern.severity ∧ f.message = pattern.description := by
  have hlit := ruleFindings_invalid eng code pattern hinvalid
  have hdne : pattern.pattern_text.data ≠ [] := string_data_ne_nil _ hne
  have hscan : litScan pattern.pattern_text.data line.data 0 ≠ [] :=
    litScan_ne_nil _ hdne _ 0 hocc
  have hmatch : litMatchAll pattern.pattern_text line ≠ [] := by
    simp only [litMatchAll]
    intro hmap
    exact hscan (List.map_eq_nil_iff.mp hmap)
  obtain ⟨m, hm⟩ := List.exists_mem_of_ne_nil _ hmatch
  refine ⟨mkFinding pattern code i m, ?_, rfl, rfl, rfl, rfl⟩
  rw [hlit]
  exact List.mem_flatMap.mpr ⟨(i, line), hmem, List.mem_map_of_mem _ hm⟩

/-- C2: pattern matching never raises for any rule text.  A rule text that
fails to compile as a regular expression is escaped (round-tripping to the
literal text) and used as a literal-substring matcher which still emits a
finding on every line where the literal text occurs; and matching a
concatenation of rule lists is the concatenation of their matches, so a
single rule's runtime fault — absorbed inside `scanRuleLines` — never
aborts the matching of the remaining rules.  Totality of `matchPatterns`
is by construction: it returns a plain finding list for every engine,
rule list and source text. -/
theorem pattern_matcher_never_raises
    (eng : RegexEngine) (code : String) (pattern : CodePattern)
    (ps₁ ps₂ : List CodePattern)
    (hinvalid : eng.isValid pattern.pattern_text = false)
    (hne : pattern.pattern_text ≠ "") :
    (unescapeChars (escapeRegexChars pattern.pattern_text).data
        = pattern.pattern_text.data) ∧
    (∀ i line, (i, line) ∈ enumLines code →
      occursCI pattern.pattern_text.data line.data = true →
      ∃ f ∈ matchPatterns eng code (ps₁ ++ pattern :: ps₂),
        f.line_start = some (i + 1) ∧ f.pattern_match_id = some pattern.id) ∧
    (∀ qs₁ qs₂ : List CodePattern,
      matchPatterns eng code (qs₁ ++ qs₂)
        = matchPatterns eng code qs₁ ++ matchPatterns eng code qs₂) := by
  refine ⟨?_, ?_, fun qs₁ qs₂ => matchPatterns_append eng code qs₁ qs₂⟩
  · have h2 : (escapeRegexChars pattern.pattern_text).data
        = escapeChars pattern.pattern_text.data := rfl
    rw [h2, unescape_escape]
  · intro i line hmem hocc
    obtain ⟨f, hf, hline, hid, _, _⟩ :=
      ruleFindings_has_match eng code pattern i line hinvalid hne hmem hocc
    refine ⟨f, ?_, hline, hid⟩
    rw [matchPatterns_append, matchPatterns_cons]
    exact List.mem_append_right _ (List.mem_append_left _ hf)

/-- Witness for C2: the malformed rule text `function(` (which JS rejects
as a regex) scanned over the line `const f = function(x)` by an engine
that rejects every rule text and faults on every genuine-regex scan. -/
theorem pattern_matcher_never_raises_witness :
    (unescapeChars (escapeRegexChars funcRule.pattern_text).data
        = funcRule.pattern_text.data) ∧
    (∀ i line, (i, line) ∈ enumLines "const f = function(x)" →
      occursCI funcRule.pattern_text.data line.data = true →
      ∃ f ∈ matchPatterns litEngine "const f = function(x)"
          ([] ++ funcRule :: []),
        f.line_start = some (i + 1) ∧ f.pattern_match_id = some funcRule.id) ∧
    (∀ qs₁ qs₂ : List CodePattern,
      matchPatterns litEngine "const f = function(x)" (qs₁ ++ qs₂)
        = matchPatterns litEngine "const f = function(x)" qs₁
          ++ matchPatterns litEngine "const f = function(x)" qs₂) :=
  pattern_matcher_never_raises litEngine "const f = function(x)" funcRule
    [] [] rfl (by decide)

/-- C4: any code containing the literal text `eval(`, analyzed by the
security pipeline with the AI stage disabled and the seed `eval(` rule
among the fetched patterns, yields at least one finding of severity
`critical` whose message mentions `eval`.  (The seed rule text `eval(` is
not valid regex syntax — unterminated group — so the engine hypothesis
states that the ambient JS engine rejects it.) -/
theorem security_pipeline_flags_eval
    (eng : RegexEngine) (patterns : List CodePattern)
    (code language rid : String)
    (hrule : evalRule rid ∈ patterns)
    (hinvalid : eng.isValid "eval(" = false)
    (hoccur : occursIn "eval(".data code.data = true) :
    ∃ f ∈ securityAnalyzeNoLLM eng patterns code language,
      f.severity = Severity.critical ∧
      occursIn "eval".data f.message.data = true := by
  have hnl : '\n' ∉ "eval(".data := by decide
  obtain ⟨d, hd, hocc⟩ := occurs_in_some_line "eval(".data hnl code.data hoccur
  have hline : String.mk d ∈ jsSplitLines code := List.mem_map_of_mem _ hd
  obtain ⟨i, hi⟩ := mem_enumFrom_of_mem (jsSplitLines code) 0 hline
  have hmem : (i, String.mk d) ∈ enumLines code := hi
  have hoccCI : occursCI (evalRule rid).pattern_text.data (String.mk d).data = true :=
    occursCI_of_occursIn _ _ hocc
  obtain ⟨f, hf, _, _, hsev, hmsg⟩ :=
    ruleFindings_has_match eng code (evalRule rid) i (String.mk d)
      hinvalid (by simp [evalRule]) hmem hoccCI
  refine ⟨f, ?_, ?_, ?_⟩
  · obtain ⟨s, t, hst⟩ := List.append_of_mem hrule
    rw [securityAnalyzeNoLLM, hst, matchPatterns_append, matchPatterns_cons]
    exact List.mem_append_left _
      (List.mem_append_right _ (List.mem_append_left _ hf))
  · rw [hsev]; rfl
  · rw [hmsg]
    simp only [evalRule]
    decide

/-- Witness for C4: the end-to-end scenario input
`const result = eval(data.input);` with the seed rule library entry. -/
theorem security_pipeline_flags_eval_witness :
    ∃ f ∈ securityAnalyzeNoLLM litEngine [evalRule "rule-eval"]
        "const result = eval(data.input);" "javascript",
      f.severity = Severity.critical ∧
      occursIn "eval".data f.message.data = true :=
  security_pipeline_flags_eval litEngine [evalRule "rule-eval"]
    "const result = eval(data.input);" "javascript" "rule-eval"
    (by decide) rfl (by decide)

/-- C10: a pattern match starting at column 0 yields a finding with
`column_start = 0` but no `column_end` — the JS truthiness test on
`match.index` drops it even though the matched text has positive length —
while a match at column ≥ 1 yields
`column_end = column_start + (matched text length)`. -/
theorem match_column_end_quirk (pattern : CodePattern) (code : String)
    (index pos : Nat) (s : String) (_hs : 0 < s.length) :
    (mkFinding pattern code index (pos, s)).column_start = some pos ∧
    (pos = 0 → (mkFinding pattern code index (pos, s)).column_end = none) ∧
    (1 ≤ pos →
      (mkFinding pattern code index (pos, s)).column_end
        = some (pos + s.length)) := by
  refine ⟨rfl, fun h => ?_, fun h => ?_⟩
  · simp [mkFinding, h]
  · simp [mkFinding, Nat.one_le_iff_ne_zero.mp h]

/-- Witness for C10: the `eval(` match at column 0 of `eval(x)` loses its
`column_end`; the same match at column 13 keeps it. -/
theorem match_column_end_quirk_witness :
    (((mkFinding (evalRule "rule-eval") "eval(x)" 0 (0, "eval(")).column_start
        = some 0 ∧
      (0 = 0 → (mkFinding (evalRule "rule-eval") "eval(x)" 0 (0, "eval(")).column_end
        = none) ∧
      (1 ≤ 0 → (mkFinding (evalRule "rule-eval") "eval(x)" 0 (0, "eval(")).column_end
        = some (0 + "eval(".length))) ∧
     ((mkFinding (evalRule "rule-eval") "y = function(eval(z))" 0
        (13, "eval(")).column_start = some 13 ∧
      (13 = 0 → (mkFinding (evalRule "rule-eval") "y = function(eval(z))" 0
        (13, "eval(")).column_end = none) ∧
      (1 ≤ 13 → (mkFinding (evalRule "rule-eval") "y = function(eval(z))" 0
        (13, "eval(")).column_end = some (13 + "eval(".length)))) :=
  ⟨match_column_end_quirk (evalRule "rule-eval") "eval(x)" 0 0 "eval("
      (by decide),
   match_column_end_quirk (evalRule "rule-eval") "y = function(eval(z))" 0 13
      "eval(" (by decide)⟩

/-- One agent's run never touches the submissions table. -/
theorem runAgent_submissions (outcome : String → PipelineOutcome)
    (progressOf : String → List String) (subId : String) (a : AgentRow)
    (st : DBState) :
    (runAgent outcome progressOf subId a st).1.submissions = st.submissions := by
  cases h : outcome a.id with
  | ok p => obtain ⟨fs, ms⟩ := p; simp [runAgent, h]
  | error e => simp [runAgent, h]

/-- One agent's run never writes the submission status log. -/
theorem runAgent_statusLog (outcome : String → PipelineOutcome)
    (progressOf : String → List String) (subId : String) (a : AgentRow)
    (st : DBState) :
    (runAgent outcome progressOf subId a st).1.statusLog = st.statusLog := by
  cases h : outcome a.id with
  | ok p => obtain ⟨fs, ms⟩ := p; simp [runAgent, h]
  | error e => simp [runAgent, h]

/-- One agent's run appends exactly its own result rows. -/
theorem runAgent_results (outcome : String → PipelineOutcome)
    (progressOf : String → List String) (subId : String) (a : AgentRow)
    (st : DBState) :
    (runAgent outcome progressOf subId a st).1.results
      = st.results ++ resultRowsOf subId outcome a := by
  cases h : outcome a.id with
  | ok p => obtain ⟨fs, ms⟩ := p; simp [runAgent, resultRowsOf, h]
  | error e => simp [runAgent, resultRowsOf, h]

/-- One agent's run succeeds exactly when its pipeline outcome is ok. -/
theorem runAgent_flag (outcome : String → PipelineOutcome)
    (progressOf : String → List String) (subId : String) (a : AgentRow)
    (st : DBState) :
    (runAgent outcome progressOf subId a st).2.2 = outcomeOk (outcome a.id) := by
  cases h : outcome a.id with
  | ok p => obtain ⟨fs, ms⟩ := p; simp [runAgent, outcomeOk, h]
  | error e => simp [runAgent, outcomeOk, h]

/-- One agent's run broadcasts exactly its progress events. -/
theorem runAgent_events (outcome : String → PipelineOutcome)
    (progressOf : String → List String) (subId : String) (a : AgentRow)
    (st : DBState) :
    (runAgent outcome progressOf subId a st).2.1
      = (progressOf a.id).map
          (fun step => { msgType := WSMsgType.agent_progress, payload := step }) := by
  cases h : outcome a.id with
  | ok p => obtain ⟨fs, ms⟩ := p; simp [runAgent, h]
  | error e => simp [runAgent, h]

/-- The fan-out never touches the submissions table. -/
theorem runAgents_submissions (outcome : String → PipelineOutcome)
    (progressOf : String → List String) (subId : String) :
    ∀ (roster : List AgentRow) (st : DBState),
      (runAgents outcome progressOf subId roster st).1.submissions
        = st.submissions := by
  intro roster
  induction roster with
  | nil => intro st; rfl
  | cons a rest ih =>
    intro st
    simp only [runAgents]
    rw [ih, runAgent_submissions]

/-- The fan-out never writes the submission status log. -/
theorem runAgents_statusLog (outcome : String → PipelineOutcome)
    (progressOf : String → List String) (subId : String) :
    ∀ (roster : List AgentRow) (st : DBState),
      (runAgents outcome progressOf subId roster st).1.statusLog
        = st.statusLog := by
  intro roster
  induction roster with
  | nil => intro st; rfl
  | cons a rest ih =>
    intro st
    simp only [runAgents]
    rw [ih, runAgent_statusLog]

/-- The fan-out appends exactly the per-agent result rows, in roster
order: every result stored by a pipeline that finished remains stored. -/
theorem runAgents_results (outcome : String → PipelineOutcome)
    (progressOf : String → List String) (subId : String) :
    ∀ (roster : List AgentRow) (st : DBState),
      (runAgents outcome progressOf subId roster st).1.results
        = st.results ++ roster.flatMap (resultRowsOf subId outcome) := by
  intro roster
  induction roster with
  | nil => intro st; simp [runAgents]
  | cons a rest ih =>
    intro st
    simp only [runAgents, List.flatMap_cons]
    rw [ih, runAgent_results, List.append_assoc]

/-- The join flag is the conjunction of the per-pipeline outcomes. -/
theorem runAgents_flag (outcome : String → PipelineOutcome)
    (progressOf : String → List String) (subId : String) :
    ∀ (roster : List AgentRow) (st : DBState),
      (runAgents outcome progressOf subId roster st).2.2
        = roster.all (fun a => outcomeOk (outcome a.id)) := by
  intro roster
  induction roster with
  | nil => intro st; rfl
  | cons a rest ih =>
    intro st
    simp only [runAgents, List.all_cons]
    rw [ih, runAgent_flag]

/-- Every event the fan-out broadcasts is an `agent_progress` event. -/
theorem runAgents_events_progress (outcome : String → PipelineOutcome)
    (progressOf : String → List String) (subId : String) :
    ∀ (roster : List AgentRow) (st : DBState),
      ∀ m ∈ (runAgents outcome progressOf subId roster st).2.1,
        m.msgType = WSMsgType.agent_progress := by
  intro roster
  induction roster with
  | nil => intro st m hm; cases hm
  | cons a rest ih =>
    intro st m hm
    simp only [runAgents, List.mem_append] at hm
    rcases hm with hm | hm
    · rw [runAgent_events] at hm
      obtain ⟨step, _, rfl⟩ := List.mem_map.mp hm
      rfl
    · exact ih _ m hm

/-- A status write for a different agent id leaves the rows of `x`
untouched. -/
theorem setAgentStatus_preserves (agents : List AgentRow) (y : String)
    (s : AgentStatus) (x : String) (s0 : AgentStatus) (hxy : x ≠ y)
    (h : ∀ b ∈ agents, b.id = x → b.status = s0) :
    ∀ b ∈ setAgentStatus agents y s, b.id = x → b.status = s0 := by
  intro b hb hbx
  simp only [setAgentStatus, List.mem_map] at hb
  obtain ⟨a, ha, rfl⟩ := hb
  by_cases hay : a.id = y
  · rw [if_pos hay] at hbx
    have hax : a.id = x := hbx
    exact absurd (hay.symm.trans hax).symm hxy
  · rw [if_neg hay] at hbx ⊢
    exact h a ha hbx

/-- After a status write for agent id `x`, every row of `x` carries the
written status. -/
theorem setAgentStatus_sets (agents : List AgentRow) (x : String)
    (s : AgentStatus) :
    ∀ b ∈ setAgentStatus agents x s, b.id = x → b.status = s := by
  intro b hb hbx
  simp only [setAgentStatus, List.mem_map] at hb
  obtain ⟨a, ha, rfl⟩ := hb
  by_cases hax : a.id = x
  · simp [hax]
  · rw [if_neg hax] at hbx
    exact absurd hbx hax

/-- Running a pipeline for a different agent preserves a uniform status of
agent `x`. -/
theorem runAgent_preserves_status (outcome : String → PipelineOutcome)
    (progressOf : String → List String) (subId : String) (a : AgentRow)
    (st : DBState) (x : String) (s0 : AgentStatus) (hne : a.id ≠ x)
    (h : ∀ b ∈ st.agents, b.id = x → b.status = s0) :
    ∀ b ∈ (runAgent outcome progressOf subId a st).1.agents,
      b.id = x → b.status = s0 := by
  have hxy : x ≠ a.id := fun hh => hne hh.symm
  cases hoc : outcome a.id with
  | ok p =>
    obtain ⟨fs, ms⟩ := p
    simp only [runAgent, hoc]
    exact setAgentStatus_preserves _ _ _ _ _ hxy
      (setAgentStatus_preserves _ _ _ _ _ hxy h)
  | error e =>
    simp only [runAgent, hoc]
    exact setAgentStatus_preserves _ _ _ _ _ hxy
      (setAgentStatus_preserves _ _ _ _ _ hxy h)

/-- A failing pipeline leaves its agent's rows marked `error`. -/
theorem runAgent_error_sets (outcome : String → PipelineOutcome)
    (progressOf : String → List String) (subId : String) (a : AgentRow)
    (st : DBState) (e : String) (herr : outcome a.id = Except.error e) :
    ∀ b ∈ (runAgent outcome progressOf subId a st).1.agents,
      b.id = a.id → b.status = AgentStatus.error := by
  simp only [runAgent, herr]
  exact setAgentStatus_sets _ _ _

/-- The fan-out over agents with other ids preserves a uniform status of
agent `x`. -/
theorem runAgents_preserves_status (outcome : String → PipelineOutcome)
    (progressOf : String → List String) (subId : String) (x : String)
    (s0 : AgentStatus) :
    ∀ (roster : List AgentRow) (st : DBState),
      (∀ b ∈ roster, b.id ≠ x) →
      (∀ b ∈ st.agents, b.id = x → b.status = s0) →
      ∀ b ∈ (runAgents outcome progressOf subId roster st).1.agents,
        b.id = x → b.status = s0 := by
  intro roster
  induction roster with
  | nil => intro st _ h; exact h
  | cons a rest ih =>
    intro st hno h
    simp only [runAgents]
    exact ih _ (fun b hb => hno b (List.mem_cons_of_mem _ hb))
      (runAgent_preserves_status outcome progressOf subId a st x s0
        (hno a (List.mem_cons_self _ _)) h)

/-- After the fan-out, a failed pipeline's agent is marked `error`
(agent ids being unique, as the `agents` table enforces). -/
theorem runAgents_error_final (outcome : String → PipelineOutcome)
    (progressOf : String → List String) (subId : String) :
    ∀ (roster : List AgentRow) (st : DBState) (a : AgentRow) (e : String),
      (roster.map (fun b => b.id)).Nodup →
      a ∈ roster → outcome a.id = Except.error e →
      ∀ b ∈ (runAgents outcome progressOf subId roster st).1.agents,
        b.id = a.id → b.status = AgentStatus.error := by
  intro roster
  induction roster with
  | nil => intro st a e _ ha; cases ha
  | cons hd rest ih =>
    intro st a e hnd ha herr
    simp only [List.map_cons] at hnd
    have hnd2 := List.nodup_cons.mp hnd
    rcases List.mem_cons.mp ha with rfl | ha
    · have hrest : ∀ b ∈ rest, b.id ≠ a.id := by
        intro b hb hbe
        exact hnd2.1 (hbe ▸ List.mem_map_of_mem (fun c => c.id) hb)
      simp only [runAgents]
      exact runAgents_preserves_status outcome progressOf subId a.id
        AgentStatus.error rest _ hrest
        (runAgent_error_sets outcome progressOf subId a st e herr)
    · simp only [runAgents]
      exact ih _ a e hnd2.2 ha herr

/-- Looking a key up past entries with other keys. -/
theorem lookup_append_right {β : Type} (l₁ l₂ : List (String × β)) (id : String)
    (h : ∀ e ∈ l₁, e.1 ≠ id) : (l₁ ++ l₂).lookup id = l₂.lookup id := by
  induction l₁ with
  | nil => rfl
  | cons e rest ih =>
    obtain ⟨k, v⟩ := e
    have hk : k ≠ id := h (k, v) (List.mem_cons_self _ _)
    have hbeq : (id == k) = false :=
      beq_eq_false_iff_ne.mpr (fun hh => hk hh.symm)
    simp only [List.cons_append, List.lookup, hbeq]
    exact ih (fun e he => h e (List.mem_cons_of_mem _ he))

/-- The status rewrite of `setSubmissionStatus` as seen through lookup. -/
theorem lookup_status_map (subs : List (String × SubmissionStatus))
    (id : String) (s : SubmissionStatus) :
    (subs.map (fun e => if e.1 = id then (e.1, s) else e)).lookup id
      = (subs.lookup id).map (fun _ => s) := by
  induction subs with
  | nil => rfl
  | cons e rest ih =>
    obtain ⟨k, v⟩ := e
    by_cases hk : k = id
    · subst hk
      have hhead : (fun e => if e.1 = k then (e.1, s) else e)
          ((k, v) : String × SubmissionStatus) = (k, s) := by simp
      simp only [List.map_cons, hhead]
      simp [List.lookup]
    · simp only [List.map_cons]
      rw [if_neg hk]
      have hbeq : (id == k) = false :=
        beq_eq_false_iff_ne.mpr (fun hh => hk hh.symm)
      simp only [List.lookup, hbeq]
      exact ih

/-- The final state of one analysis run: the fan-out state with the
submission set to `completed` or `failed` according to the join flag. -/
theorem analyzeCodeModel_state (outcome : String → PipelineOutcome)
    (progressOf : String → List String) (subId : String)
    (req : Option (List String)) (st : DBState) :
    (analyzeCodeModel outcome progressOf subId req st).1
      = setSubmissionStatus
          (runAgents outcome progressOf subId (rosterFor req st.agents) st).1
          subId
          (if (runAgents outcome progressOf subId (rosterFor req st.agents) st).2.2
           then SubmissionStatus.completed else SubmissionStatus.failed) := by
  simp only [analyzeCodeModel]
  by_cases h : (runAgents outcome progressOf subId (rosterFor req st.agents) st).2.2
    = true
  · simp [h]
  · simp [h]

/-- The event trace of one analysis run: `analysis_started`, then the
pipelines' `agent_progress` events, then `analysis_complete` on success or
the `error` event on failure. -/
theorem analyzeCodeModel_events (outcome : String → PipelineOutcome)
    (progressOf : String → List String) (subId : String)
    (req : Option (List String)) (st : DBState) :
    (analyzeCodeModel outcome progressOf subId req st).2.1
      = { msgType := WSMsgType.analysis_started, payload := subId } ::
          (runAgents outcome progressOf subId (rosterFor req st.agents) st).2.1
          ++ [if (runAgents outcome progressOf subId (rosterFor req st.agents) st).2.2
              then { msgType := WSMsgType.analysis_complete, payload := subId }
              else { msgType := WSMsgType.errorMsg, payload := "Analysis failed" }] := by
  simp only [analyzeCodeModel]
  by_cases h : (runAgents outcome progressOf subId (rosterFor req st.agents) st).2.2
    = true
  · simp [h]
  · simp [h]

/-- The roster is a sublist of the agents table. -/
theorem rosterFor_sublist (req : Option (List String)) (agents : List AgentRow) :
    List.Sublist (rosterFor req agents) agents := by
  cases req with
  | none => exact List.filter_sublist _
  | some r => exact (List.filter_sublist _).trans (List.filter_sublist _)

/-- The status a fresh submission ends with: `completed` iff every selected
pipeline succeeded, else `failed`. -/
theorem handleAnalyze_lookup (outcome : String → PipelineOutcome)
    (progressOf : String → List String) (subId : String)
    (req : Option (List String)) (st : DBState)
    (hfresh : ∀ e ∈ st.submissions, e.1 ≠ subId) :
    ((handleAnalyze outcome progressOf subId req st).1.submissions).lookup subId
      = some (if (rosterFor req st.agents).all (fun a => outcomeOk (outcome a.id))
          then SubmissionStatus.completed else SubmissionStatus.failed) := by
  simp only [handleAnalyze]
  rw [analyzeCodeModel_state]
  simp only [setSubmissionStatus]
  rw [runAgents_submissions]
  have hsub : (insertSubmission st subId SubmissionStatus.analyzing).submissions
      = st.submissions ++ [(subId, SubmissionStatus.analyzing)] := rfl
  rw [hsub, lookup_status_map, lookup_append_right _ _ _ hfresh, runAgents_flag,
    show (insertSubmission st subId SubmissionStatus.analyzing).agents
      = st.agents from rfl]
  simp [List.lookup]

/-- The ghost status log a run appends: the `analyzing` insert and one
terminal update. -/
theorem handleAnalyze_statusLog (outcome : String → PipelineOutcome)
    (progressOf : String → List String) (subId : String)
    (req : Option (List String)) (st : DBState) :
    (handleAnalyze outcome progressOf subId req st).1.statusLog
      = st.statusLog ++ [(subId, SubmissionStatus.analyzing),
          (subId,
            if (rosterFor req st.agents).all (fun a => outcomeOk (outcome a.id))
            then SubmissionStatus.completed else SubmissionStatus.failed)] := by
  simp only [handleAnalyze]
  rw [analyzeCodeModel_state]
  simp only [setSubmissionStatus]
  rw [runAgents_statusLog, runAgents_flag]
  have hlog : (insertSubmission st subId SubmissionStatus.analyzing).statusLog
      = st.statusLog ++ [(subId, SubmissionStatus.analyzing)] := rfl
  rw [hlog, List.append_assoc]
  rfl

/-- The agents table after a run is the fan-out's agents table. -/
theorem handleAnalyze_agents (outcome : String → PipelineOutcome)
    (progressOf : String → List String) (subId : String)
    (req : Option (List String)) (st : DBState) :
    (handleAnalyze outcome progressOf subId req st).1.agents
      = (runAgents outcome progressOf subId (rosterFor req st.agents)
          (insertSubmission st subId SubmissionStatus.analyzing)).1.agents := by
  simp only [handleAnalyze]
  rw [analyzeCodeModel_state]
  rfl

/-- The results table after a run: everything already stored, plus one row
per successful pipeline. -/
theorem handleAnalyze_results (outcome : String → PipelineOutcome)
    (progressOf : String → List String) (subId : String)
    (req : Option (List String)) (st : DBState) :
    (handleAnalyze outcome progressOf subId req st).1.results
      = st.results
        ++ (rosterFor req st.agents).flatMap (resultRowsOf subId outcome) := by
  simp only [handleAnalyze]
  rw [analyzeCodeModel_state]
  have h1 : (setSubmissionStatus
      (runAgents outcome progressOf subId
        (rosterFor req (insertSubmission st subId SubmissionStatus.analyzing).agents)
        (insertSubmission st subId SubmissionStatus.analyzing)).1 subId
      (if (runAgents outcome progressOf subId
          (rosterFor req (insertSubmission st subId SubmissionStatus.analyzing).agents)
          (insertSubmission st subId SubmissionStatus.analyzing)).2.2
       then SubmissionStatus.completed else SubmissionStatus.failed)).results
      = (runAgents outcome progressOf subId
          (rosterFor req (insertSubmission st subId SubmissionStatus.analyzing).agents)
          (insertSubmission st subId SubmissionStatus.analyzing)).1.results := rfl
  rw [h1, runAgents_results]
  rfl

/-- The events a run broadcasts: `analysis_started`, the pipelines'
`agent_progress` events, then `analysis_complete` or the `error` event. -/
theorem handleAnalyze_events (outcome : String → PipelineOutcome)
    (progressOf : String → List String) (subId : String)
    (req : Option (List String)) (st : DBState) :
    (handleAnalyze outcome progressOf subId req st).2
      = { msgType := WSMsgType.analysis_started, payload := subId } ::
          (runAgents outcome progressOf subId (rosterFor req st.agents)
            (insertSubmission st subId SubmissionStatus.analyzing)).2.1
          ++ [if (rosterFor req st.agents).all (fun a => outcomeOk (outcome a.id))
              then { msgType := WSMsgType.analysis_complete, payload := subId }
              else { msgType := WSMsgType.errorMsg, payload := "Analysis failed" }] := by
  simp only [handleAnalyze]
  rw [analyzeCodeModel_events, runAgents_flag]
  rfl

/-- C1 counterexample: a successful run whose single pipeline returns one
critical finding stores confidence 0.85 (index.ts line 435), while the
§4.3 scorer (`BaseAgent.calculateConfidence`) on the same finding set
yields 1: the stored value is not the §4.3 scorer. -/
theorem stored_confidence_not_scorer :
    cxRun.results = [cxRow] ∧
    cxRow.confidence = (17 : ℚ)/20 ∧
    calculateConfidence cxRow.findings = 1 ∧
    ((17 : ℚ)/20) ≠ 1 := by
  refine ⟨rfl, rfl, ?_, by norm_num⟩
  show calculateConfidence [cxFinding] = 1
  norm_num [calculateConfidence, cxFinding, severityWeight, min_def]

/-- C1 amended: the confidence stored with each AnalysisResult is computed
once from the pipeline's full finding set after all stages finish, but by
the hardcoded rule of index.ts line 435 — 1.0 when the finding set is
empty and 0.85 otherwise — not by the §4.3 scorer. -/
theorem stored_confidence_amended (outcome : String → PipelineOutcome)
    (progressOf : String → List String) (subId : String)
    (req : Option (List String)) (st : DBState) :
    ∀ r ∈ (handleAnalyze outcome progressOf subId req st).1.results,
      r ∈ st.results ∨
        r.confidence = (if r.findings.length > 0 then (17 : ℚ)/20 else 1) := by
  intro r hr
  rw [handleAnalyze_results] at hr
  rcases List.mem_append.mp hr with h | h
  · exact Or.inl h
  · right
    obtain ⟨a, _, hrow⟩ := List.mem_flatMap.mp h
    unfold resultRowsOf at hrow
    cases houtcome : outcome a.id with
    | ok p =>
      obtain ⟨fs, ms⟩ := p
      rw [houtcome] at hrow
      simp only [List.mem_singleton] at hrow
      subst hrow
      simp [storedConfidence]
    | error e =>
      rw [houtcome] at hrow
      simp at hrow

/-- Witness for the amended C1: the stored row of the concrete successful
run carries confidence 0.85 for its non-empty finding list. -/
theorem stored_confidence_amended_witness :
    cxRow ∈ cxState.results ∨
      cxRow.confidence = (if cxRow.findings.length > 0 then (17 : ℚ)/20 else 1) :=
  stored_confidence_amended cxOkOutcome cxNoProgress "sub-1" none cxState
    cxRow (by
      rw [show (handleAnalyze cxOkOutcome cxNoProgress "sub-1" none
          cxState).1.results = [cxRow] from rfl]
      exact List.mem_singleton_self _)

/-- C5: the all-or-nothing join of the orchestrator.  If every selected
pipeline succeeds the submission ends `completed`; if any pipeline fails —
whatever the other pipelines did — the submission ends `failed`, an
`error` event is broadcast, every row of the failing agent is marked
`error`, and each successful pipeline's stored AnalysisResult row is still
in the results table afterwards. -/
theorem orchestrator_join_semantics (outcome : String → PipelineOutcome)
    (progressOf : String → List String) (subId : String)
    (req : Option (List String)) (st : DBState)
    (hfresh : ∀ e ∈ st.submissions, e.1 ≠ subId)
    (hids : (st.agents.map (fun a => a.id)).Nodup) :
    ((∀ a ∈ rosterFor req st.agents, outcomeOk (outcome a.id) = true) →
      ((handleAnalyze outcome progressOf subId req st).1.submissions).lookup subId
        = some SubmissionStatus.completed) ∧
    (∀ a ∈ rosterFor req st.agents, ∀ e, outcome a.id = Except.error e →
      (((handleAnalyze outcome progressOf subId req st).1.submissions).lookup subId
        = some SubmissionStatus.failed) ∧
      (∃ m ∈ (handleAnalyze outcome progressOf subId req st).2,
        m.msgType = WSMsgType.errorMsg) ∧
      (∀ b ∈ (handleAnalyze outcome progressOf subId req st).1.agents,
        b.id = a.id → b.status = AgentStatus.error)) ∧
    (∀ a ∈ rosterFor req st.agents, ∀ fs ms,
      outcome a.id = Except.ok (fs, ms) →
      ({ submission_id := subId, agent_id := a.id, findings := fs,
         confidence := storedConfidence fs,
         execution_time_ms := ms } : StoredResult)
        ∈ (handleAnalyze outcome progressOf subId req st).1.results) := by
  refine ⟨?_, ?_, ?_⟩
  · intro hall
    rw [handleAnalyze_lookup outcome progressOf subId req st hfresh,
      if_pos (List.all_eq_true.mpr hall)]
  · intro a ha e herr
    have hflag : (rosterFor req st.agents).all
        (fun a => outcomeOk (outcome a.id)) = false := by
      cases hall : (rosterFor req st.agents).all
          (fun a => outcomeOk (outcome a.id)) with
      | false => rfl
      | true =>
        have := List.all_eq_true.mp hall a ha
        rw [herr] at this
        simp [outcomeOk] at this
    refine ⟨?_, ?_, ?_⟩
    · rw [handleAnalyze_lookup outcome progressOf subId req st hfresh, hflag]
      rfl
    · refine ⟨{ msgType := WSMsgType.errorMsg, payload := "Analysis failed" },
        ?_, rfl⟩
      rw [handleAnalyze_events, hflag]
      simp
    · intro b hb hbid
      rw [handleAnalyze_agents] at hb
      have hnd : ((rosterFor req st.agents).map (fun a => a.id)).Nodup :=
        List.Nodup.sublist ((rosterFor_sublist req st.agents).map _) hids
      exact runAgents_error_final outcome progressOf subId
        (rosterFor req st.agents) _ a e hnd ha herr b hb hbid
  · intro a ha fs ms hok
    rw [handleAnalyze_results]
    refine List.mem_append_right _ (List.mem_flatMap.mpr ⟨a, ha, ?_⟩)
    simp [resultRowsOf, hok]

/-- Witness for C5: the concrete failing run ends `failed`, broadcasts an
`error` event, and marks the failing agent `error`. -/
theorem orchestrator_join_semantics_witness :
    (((handleAnalyze cxBadOutcome cxNoProgress "sub-2" none cxState).1.submissions).lookup "sub-2"
      = some SubmissionStatus.failed) ∧
    (∃ m ∈ (handleAnalyze cxBadOutcome cxNoProgress "sub-2" none cxState).2,
      m.msgType = WSMsgType.errorMsg) ∧
    (∀ b ∈ (handleAnalyze cxBadOutcome cxNoProgress "sub-2" none cxState).1.agents,
      b.id = cxAgent.id → b.status = AgentStatus.error) :=
  (orchestrator_join_semantics cxBadOutcome cxNoProgress "sub-2" none cxState
      (by simp [cxState]) (by decide)).2.1 cxAgent (by decide)
    "store unreachable" rfl

/-- C6: the status values the core writes for a submission follow the
monotonic lifecycle chain `pending → analyzing → (completed | failed)`
(the record is created directly at `analyzing`; `pending` is only the
schema default), every write moves strictly forward along the chain, and
once a terminal status is written nothing is written after it.  Only
`handleAnalyze` writes submission statuses, and each submission id is
used for exactly one run (a fresh UUID), captured by the freshness
hypothesis on the ghost log. -/
theorem submission_lifecycle_monotonic (outcome : String → PipelineOutcome)
    (progressOf : String → List String) (subId : String)
    (req : Option (List String)) (st : DBState)
    (hfresh : st.statusLog.filter (fun e => e.1 = subId) = []) :
    List.Chain' (fun a b => statusRank a < statusRank b)
      (SubmissionStatus.pending ::
        (((handleAnalyze outcome progressOf subId req st).1.statusLog.filter
            (fun e => e.1 = subId)).map (fun e => e.2))) ∧
    (∀ pre s post,
      (((handleAnalyze outcome progressOf subId req st).1.statusLog.filter
          (fun e => e.1 = subId)).map (fun e => e.2)) = pre ++ s :: post →
      isTerminal s = true → post = []) := by
  have hlog := handleAnalyze_statusLog outcome progressOf subId req st
  have hwrites :
      (((handleAnalyze outcome progressOf subId req st).1.statusLog.filter
          (fun e => e.1 = subId)).map (fun e => e.2))
        = [SubmissionStatus.analyzing,
           if (rosterFor req st.agents).all (fun a => outcomeOk (outcome a.id))
           then SubmissionStatus.completed else SubmissionStatus.failed] := by
    rw [hlog, List.filter_append, hfresh]
    simp
  rw [hwrites]
  constructor
  · cases hall : (rosterFor req st.agents).all
        (fun a => outcomeOk (outcome a.id)) <;>
      simp [List.chain'_cons, statusRank]
  · intro pre s post heq hterm
    cases pre with
    | nil =>
      obtain ⟨hs, -⟩ := List.cons.injEq .. ▸ (heq.symm)
      rw [hs] at hterm
      simp [isTerminal] at hterm
    | cons x pre2 =>
      rw [List.cons_append] at heq
      have h2 := (List.cons.injEq .. ▸ heq.symm).2
      cases pre2 with
      | nil =>
        have := (List.cons.injEq .. ▸ h2.symm).2
        exact this.symm
      | cons y pre3 =>
        rw [List.cons_append] at h2
        have h3 := (List.cons.injEq .. ▸ h2.symm).2
        exact absurd h3.symm (List.append_ne_nil_of_right_ne_nil _ (List.cons_ne_nil _ _))

/-- Witness for C6: the concrete successful run writes exactly
`analyzing` then `completed` for its submission. -/
theorem submission_lifecycle_monotonic_witness :
    List.Chain' (fun a b => statusRank a < statusRank b)
      (SubmissionStatus.pending ::
        (((handleAnalyze cxOkOutcome cxNoProgress "sub-1" none
            cxState).1.statusLog.filter
            (fun e => e.1 = "sub-1")).map (fun e => e.2))) ∧
    (∀ pre s post,
      (((handleAnalyze cxOkOutcome cxNoProgress "sub-1" none
          cxState).1.statusLog.filter
          (fun e => e.1 = "sub-1")).map (fun e => e.2)) = pre ++ s :: post →
      isTerminal s = true → post = []) :=
  submission_lifecycle_monotonic cxOkOutcome cxNoProgress "sub-1" none cxState
    rfl

/-- The roster only ever contains available (non-`error`) agents. -/
theorem rosterFor_subset_available (req : Option (List String))
    (agents : List AgentRow) :
    ∀ a ∈ rosterFor req agents, a ∈ getAvailableAgents agents := by
  intro a ha
  cases req with
  | none => exact ha
  | some r => exact List.mem_of_mem_filter ha

/-- C9: an agent whose status is `error` is never selected for analysis.
The roster query excludes `error` agents; therefore after a failure marks
an agent `error`, every subsequent run — including one over the full
default roster — silently excludes that agent (nothing in the core resets
the status). -/
theorem error_agents_excluded (outcome : String → PipelineOutcome)
    (progressOf : String → List String) (subId : String)
    (req req2 : Option (List String)) (st : DBState)
    (hids : (st.agents.map (fun a => a.id)).Nodup) :
    (∀ agents : List AgentRow, ∀ a ∈ getAvailableAgents agents,
      a.status ≠ AgentStatus.error) ∧
    (∀ a ∈ rosterFor req st.agents, a.status ≠ AgentStatus.error) ∧
    (∀ a ∈ rosterFor req st.agents, ∀ e, outcome a.id = Except.error e →
      ∀ b ∈ rosterFor req2
          (analyzeCodeModel outcome progressOf subId req st).1.agents,
        b.id ≠ a.id) := by
  have havail : ∀ agents : List AgentRow, ∀ a ∈ getAvailableAgents agents,
      a.status ≠ AgentStatus.error := by
    intro agents a ha
    have := List.of_mem_filter ha
    simpa using this
  refine ⟨havail, ?_, ?_⟩
  · intro a ha
    exact havail st.agents a (rosterFor_subset_available req st.agents a ha)
  · intro a ha e herr b hb hbid
    have hagents : (analyzeCodeModel outcome progressOf subId req st).1.agents
        = (runAgents outcome progressOf subId (rosterFor req st.agents) st).1.agents := by
      rw [analyzeCodeModel_state]
      rfl
    have hnd : ((rosterFor req st.agents).map (fun a => a.id)).Nodup :=
      List.Nodup.sublist ((rosterFor_sublist req st.agents).map _) hids
    have hbmem : b ∈ (runAgents outcome progressOf subId
        (rosterFor req st.agents) st).1.agents := by
      rw [← hagents]
      exact List.Sublist.mem hb (rosterFor_sublist req2 _)
    have hberr : b.status = AgentStatus.error :=
      runAgents_error_final outcome progressOf subId
        (rosterFor req st.agents) st a e hnd ha herr b hbmem hbid
    exact absurd hberr
      (havail _ b (rosterFor_subset_available req2 _ b hb))

/-- Witness for C9: in the concrete run where agent 1 fails and agent 2
succeeds, agent 2 is in the rerun roster and agent 1 — being distinct
from every roster member — is excluded. -/
theorem error_agents_excluded_witness : cxAgent2.id ≠ cxAgent.id :=
  (error_agents_excluded cxMixedOutcome cxNoProgress "sub-3" none none
      cxState2 (by decide)).2.2 cxAgent (by decide) "store unreachable"
    rfl cxAgent2 (by decide)

/-- One tally step bumps the total by one. -/
theorem bumpFinding_total (s : Summary) (f : Finding) :
    (bumpFinding s f).total_findings = s.total_findings + 1 := by
  cases hf : f.severity <;> simp [bumpFinding, hf]

/-- One tally step bumps exactly the counter of the finding's severity. -/
theorem bumpFinding_count (s : Summary) (f : Finding) (sev : Severity) :
    severityCount (bumpFinding s f) sev
      = severityCount s sev + (if f.severity = sev then 1 else 0) := by
  cases hf : f.severity <;> cases sev <;>
    simp [bumpFinding, severityCount, hf]

/-- Folding the tally over a finding list adds the list length to the
total. -/
theorem foldl_bump_total (fs : List Finding) :
    ∀ s : Summary, (fs.foldl bumpFinding s).total_findings
      = s.total_findings + fs.length := by
  induction fs with
  | nil => intro s; simp
  | cons f rest ih =>
    intro s
    rw [List.foldl_cons, ih, bumpFinding_total]
    simp only [List.length_cons]
    omega

/-- Folding the tally over a finding list adds the per-severity count. -/
theorem foldl_bump_count (fs : List Finding) (sev : Severity) :
    ∀ s : Summary, severityCount (fs.foldl bumpFinding s) sev
      = severityCount s sev
        + (fs.filter (fun f => f.severity = sev)).length := by
  induction fs with
  | nil => intro s; simp
  | cons f rest ih =>
    intro s
    rw [List.foldl_cons, ih, bumpFinding_count]
    by_cases hf : f.severity = sev
    · simp [List.filter_cons, hf]
      omega
    · simp [List.filter_cons, hf]

/-- The zero summary has zero everywhere. -/
theorem severityCount_empty (sev : Severity) :
    severityCount emptySummary sev = 0 := by
  cases sev <;> rfl

/-- The summary total is the sum of the per-result finding counts. -/
theorem summarize_total (results : List StoredResult) :
    (summarize results).total_findings
      = (results.map (fun r => r.findings.length)).sum := by
  suffices h : ∀ s : Summary,
      (results.foldl (fun s r => r.findings.foldl bumpFinding s) s).total_findings
        = s.total_findings + (results.map (fun r => r.findings.length)).sum by
    simpa [summarize, emptySummary] using h emptySummary
  induction results with
  | nil => intro s; simp
  | cons r rest ih =>
    intro s
    rw [List.foldl_cons, ih, foldl_bump_total]
    simp only [List.map_cons, List.sum_cons]
    omega

/-- Each summary counter counts exactly the findings of its severity. -/
theorem summarize_count (results : List StoredResult) (sev : Severity) :
    severityCount (summarize results) sev
      = ((results.flatMap (fun r => r.findings)).filter
          (fun f => f.severity = sev)).length := by
  suffices h : ∀ s : Summary,
      severityCount
          (results.foldl (fun s r => r.findings.foldl bumpFinding s) s) sev
        = severityCount s sev
          + ((results.flatMap (fun r => r.findings)).filter
              (fun f => f.severity = sev)).length by
    have := h emptySummary
    rw [severityCount_empty] at this
    simpa [summarize] using this
  induction results with
  | nil => intro s; simp
  | cons r rest ih =>
    intro s
    rw [List.foldl_cons, ih, foldl_bump_count]
    simp only [List.flatMap_cons, List.filter_append, List.length_append]
    omega

/-- Two summaries agreeing on the total and every counter are equal. -/
theorem summary_ext (s t : Summary)
    (h0 : s.total_findings = t.total_findings)
    (h : ∀ sev, severityCount s sev = severityCount t sev) : s = t := by
  cases s
  cases t
  simp only [Summary.mk.injEq]
  exact ⟨h0, h .critical, h .high, h .medium, h .low, h .info⟩

/-- The tally is invariant under reordering of the stored results: the
aggregate summary does not depend on the pipelines' completion order. -/
theorem summarize_perm (r1 r2 : List StoredResult) (h : r1.Perm r2) :
    summarize r1 = summarize r2 := by
  apply summary_ext
  · rw [summarize_total, summarize_total]
    exact (h.map (fun r => r.findings.length)).sum_eq
  · intro sev
    rw [summarize_count, summarize_count]
    rw [← List.countP_eq_length_filter, ← List.countP_eq_length_filter]
    exact (h.flatMap_right (fun r => r.findings)).countP_eq _

/-- C7: the aggregate summary is recomputed on read from the stored
AnalysisResults (`getAnalysisSummary` is a pure function of the store):
its total equals the sum of each stored result's — that is, each agent's —
finding count; each per-severity counter counts exactly the stored
findings of that severity; and the summary is independent of the order in
which the pipelines stored their results. -/
theorem aggregate_summary_spec (st : DBState) (subId : String) :
    ((getAnalysisSummary st subId).total_findings
      = ((resultsFor st subId).map (fun r => r.findings.length)).sum) ∧
    (∀ sev, severityCount (getAnalysisSummary st subId) sev
      = (((resultsFor st subId).flatMap (fun r => r.findings)).filter
          (fun f => f.severity = sev)).length) ∧
    (∀ other : List StoredResult, (resultsFor st subId).Perm other →
      summarize other = getAnalysisSummary st subId) := by
  refine ⟨summarize_total _, fun sev => summarize_count _ sev, ?_⟩
  intro other hperm
  exact (summarize_perm _ _ hperm).symm

/-- Witness for C7: the summary of the concrete run's stored results. -/
theorem aggregate_summary_spec_witness :
    ((getAnalysisSummary cxRun "sub-1").total_findings
      = ((resultsFor cxRun "sub-1").map (fun r => r.findings.length)).sum) ∧
    (∀ sev, severityCount (getAnalysisSummary cxRun "sub-1") sev
      = (((resultsFor cxRun "sub-1").flatMap (fun r => r.findings)).filter
          (fun f => f.severity = sev)).length) ∧
    (∀ other : List StoredResult, (resultsFor cxRun "sub-1").Perm other →
      summarize other = getAnalysisSummary cxRun "sub-1") :=
  aggregate_summary_spec cxRun "sub-1"

/-- Running a split operation sequence: the second part runs from the
registry the first part leaves behind — each publish sees exactly the
observers attached at its own moment. -/
theorem runBus_append (ops₁ ops₂ : List BusOp) :
    ∀ reg : Registry,
      runBus reg (ops₁ ++ ops₂)
        = runBus reg ops₁ ++ runBus (advanceReg reg ops₁) ops₂ := by
  induction ops₁ with
  | nil => intro reg; rfl
  | cons op rest ih =>
    intro reg
    cases op with
    | subscribe o s =>
      simp only [List.cons_append, runBus, advanceReg]
      exact ih _
    | publish s m =>
      simp only [List.cons_append, runBus, advanceReg, List.append_eq]
      rw [ih]
      simp [List.append_assoc]

/-- A successful association lookup points at an entry of the list. -/
theorem lookup_mem {β : Type} (reg : List (String × β)) (s : String) (v : β)
    (h : reg.lookup s = some v) : (s, v) ∈ reg := by
  induction reg with
  | nil => cases h
  | cons e rest ih =>
    obtain ⟨k, w⟩ := e
    by_cases hk : s = k
    · subst hk
      simp only [List.lookup, beq_self_eq_true] at h
      rw [Option.some.injEq] at h
      subst h
      exact List.mem_cons_self _ _
    · have hbeq : (s == k) = false := beq_eq_false_iff_ne.mpr hk
      simp only [List.lookup, hbeq] at h
      exact List.mem_cons_of_mem _ (ih h)

/-- An observer delivered to is attached to some registry entry. -/
theorem mem_lookupObservers (reg : Registry) (s : String) (o : Nat)
    (h : o ∈ lookupObservers reg s) : ∃ e ∈ reg, o ∈ e.2 := by
  unfold lookupObservers at h
  cases hl : reg.lookup s with
  | none => rw [hl] at h; cases h
  | some obsl =>
    rw [hl] at h
    exact ⟨(s, obsl), lookup_mem reg s obsl hl, h⟩

/-- Subscribing someone else never attaches `obs`. -/
theorem subscribeReg_not_mem (reg : Registry) (s : String) (o obs : Nat)
    (hne : obs ≠ o) (h : ∀ e ∈ reg, obs ∉ e.2) :
    ∀ e ∈ subscribeReg reg s o, obs ∉ e.2 := by
  intro e he
  unfold subscribeReg at he
  by_cases hx : reg.any (fun e => e.1 = s) = true
  · rw [if_pos hx] at he
    obtain ⟨e2, he2, rfl⟩ := List.mem_map.mp he
    by_cases hk : e2.1 = s
    · rw [if_pos hk]
      by_cases hc : e2.2.contains o = true
      · rw [if_pos hc]
        exact h e2 he2
      · rw [if_neg hc]
        intro hmem
        rcases List.mem_append.mp hmem with hmem | hmem
        · exact h e2 he2 hmem
        · rw [List.mem_singleton] at hmem
          exact hne hmem
    · rw [if_neg hk]
      exact h e2 he2
  · rw [if_neg hx] at he
    rcases List.mem_append.mp he with he | he
    · exact h e he
    · rw [List.mem_singleton] at he
      subst he
      intro hmem
      rw [List.mem_singleton] at hmem
      exact hne hmem

/-- No replay: an observer that is not attached and never subscribes in an
operation sequence receives nothing from it. -/
theorem runBus_no_delivery (obs : Nat) :
    ∀ (ops : List BusOp) (reg : Registry),
      (∀ e ∈ reg, obs ∉ e.2) →
      (∀ s, BusOp.subscribe obs s ∉ ops) →
      ∀ m, (obs, m) ∉ runBus reg ops := by
  intro ops
  induction ops with
  | nil => intro reg _ _ m h; cases h
  | cons op rest ih =>
    intro reg hreg hnosub m
    cases op with
    | subscribe o s =>
      have hno : obs ≠ o := by
        intro hh
        exact hnosub s (by rw [hh]; exact List.mem_cons_self _ _)
      simp only [runBus]
      exact ih _ (subscribeReg_not_mem reg s o obs hno hreg)
        (fun s2 hs2 => hnosub s2 (List.mem_cons_of_mem _ hs2)) m
    | publish s m2 =>
      simp only [runBus]
      intro hmem
      rcases List.mem_append.mp hmem with hmem | hmem
      · obtain ⟨o, ho, heq⟩ := List.mem_map.mp hmem
        rw [Prod.mk.injEq] at heq
        rw [heq.1] at ho
        obtain ⟨e, he, hoe⟩ := mem_lookupObservers reg s obs ho
        exact hreg e he hoe
      · exact ih reg hreg
          (fun s2 hs2 => hnosub s2 (List.mem_cons_of_mem _ hs2)) m hmem

/-- Publishing to an empty registry delivers nothing and attaches no one. -/
theorem runBus_pub_empty (subId : String) :
    ∀ msgs : List WSMessage,
      runBus [] (msgs.map (BusOp.publish subId)) = [] ∧
      advanceReg ([] : Registry) (msgs.map (BusOp.publish subId)) = [] := by
  intro msgs
  induction msgs with
  | nil => exact ⟨rfl, rfl⟩
  | cons msg rest ih =>
    refine ⟨?_, ?_⟩
    · simp only [List.map_cons, runBus, ih.1]
      rfl
    · simp only [List.map_cons, advanceReg, ih.2]

/-- C8: a published event is delivered only to the observers attached to
its submission at the moment of publication.  There is no replay: an
observer attaching after an event fired never receives it (first
conjunct, for any registry and any operation sequence without a subscribe
of that observer).  In particular — scenario 3 — a subscriber attaching
after all pipelines have finished but before the completion broadcast
receives exactly the `analysis_complete` event and none of the earlier
`agent_progress` events. -/
theorem progress_no_replay (outcome : String → PipelineOutcome)
    (progressOf : String → List String) (subId : String)
    (req : Option (List String)) (st : DBState) (obs : Nat)
    (hsucc : (rosterFor req st.agents).all
      (fun a => outcomeOk (outcome a.id)) = true) :
    (∀ (reg : Registry) (ops : List BusOp),
      (∀ e ∈ reg, obs ∉ e.2) →
      (∀ s, BusOp.subscribe obs s ∉ ops) →
      ∀ m, (obs, m) ∉ runBus reg ops) ∧
    (runBus [] (lateSubscriberOps
        (handleAnalyze outcome progressOf subId req st).2 subId obs)
      = [(obs, { msgType := WSMsgType.analysis_complete, payload := subId })]) ∧
    (∀ d ∈ runBus [] (lateSubscriberOps
        (handleAnalyze outcome progressOf subId req st).2 subId obs),
      d.2.msgType ≠ WSMsgType.agent_progress) := by
  have hmain : runBus [] (lateSubscriberOps
      (handleAnalyze outcome progressOf subId req st).2 subId obs)
      = [(obs, { msgType := WSMsgType.analysis_complete, payload := subId })] := by
    have hE : (handleAnalyze outcome progressOf subId req st).2
        = ({ msgType := WSMsgType.analysis_started, payload := subId } ::
            (runAgents outcome progressOf subId (rosterFor req st.agents)
              (insertSubmission st subId SubmissionStatus.analyzing)).2.1)
          ++ [{ msgType := WSMsgType.analysis_complete, payload := subId }] := by
      rw [handleAnalyze_events, hsucc]
      simp
    unfold lateSubscriberOps
    rw [hE, List.dropLast_concat, List.getLast?_concat]
    simp only [Option.elim]
    rw [List.append_assoc, runBus_append,
      (runBus_pub_empty subId _).1, (runBus_pub_empty subId _).2]
    simp [runBus, subscribeReg, lookupObservers, List.lookup]
  refine ⟨fun reg ops => runBus_no_delivery obs ops reg, hmain, ?_⟩
  intro d hd
  rw [hmain, List.mem_singleton] at hd
  subst hd
  simp

/-- Witness for C8: the concrete successful run with a late subscriber. -/
theorem progress_no_replay_witness :
    (∀ (reg : Registry) (ops : List BusOp),
      (∀ e ∈ reg, (7 : Nat) ∉ e.2) →
      (∀ s, BusOp.subscribe 7 s ∉ ops) →
      ∀ m, ((7 : Nat), m) ∉ runBus reg ops) ∧
    (runBus [] (lateSubscriberOps
        (handleAnalyze cxOkOutcome cxNoProgress "sub-1" none cxState).2
        "sub-1" 7)
      = [((7 : Nat),
          { msgType := WSMsgType.analysis_complete, payload := "sub-1" })]) ∧
    (∀ d ∈ runBus [] (lateSubscriberOps
        (handleAnalyze cxOkOutcome cxNoProgress "sub-1" none cxState).2
        "sub-1" 7),
      d.2.msgType ≠ WSMsgType.agent_progress) :=
  progress_no_replay cxOkOutcome cxNoProgress "sub-1" none cxState 7
    (by decide)

end DevSwarm
